import Mathlib

/-!
# golimg: text layout on a raster image

A shallow embedding of `golimg.go` (package `golimg`) and a verification of
its layout, colour and defaulting behaviour.

Modelling conventions.

* A Go `string` is modelled by the list of its Unicode code points (`Str`);
  the inputs are therefore the valid UTF-8 strings.  `len` is the Go `len`,
  i.e. the number of bytes of the UTF-8 encoding.
* Go `int` is 64 bit: arithmetic on the vertical cursor is wrapped with
  `wrapInt`.  `fixed.Int26_6` is an `int32`: wrapped with `wrapInt32`.
  The running character count `currentLineLength` never exceeds the byte
  length of the text, which is itself a Go `int`, so it is kept unwrapped.
* `float64` values are data (`F64`); the floating-point operations used by
  `AddText` (`*`, `/`, `math.Ceil`, conversion to `int`) are supplied by a
  `FloatOps` record and are not interpreted.
* The font library, the PNG codec and the file system are supplied by an
  `Env` record of stage results.
-/

namespace Golimg

/-! ## Strings (Go `strings` and `unicode` packages) -/

/-- Go string as a list of code points. -/
abbrev Str := List Char

/-- Go builtin `len` on a string: the byte length of its UTF-8 encoding. -/
def len (s : Str) : Nat := (s.map Char.utf8Size).sum

/-- Go `unicode.IsSpace`: the Latin-1 cases `\t \n \v \f \r`, space, U+0085,
U+00A0, and beyond Latin-1 the `White_Space` table. -/
def isSpace (c : Char) : Bool :=
  let n := c.toNat
  (0x09 ≤ n && n ≤ 0x0d) || n == 0x20 || n == 0x85 || n == 0xA0 ||
  n == 0x1680 || (0x2000 ≤ n && n ≤ 0x200a) || n == 0x2028 || n == 0x2029 ||
  n == 0x202f || n == 0x205f || n == 0x3000

/-- Go `strings.TrimSpace`: drop leading and trailing white space. -/
def TrimSpace (s : Str) : Str :=
  ((s.dropWhile isSpace).reverse.dropWhile isSpace).reverse

/-- Scanner of `strings.Split(s, " ")`; `cur` is the current piece, reversed. -/
def splitAux : Str → Str → List Str
  | cur, [] => [cur.reverse]
  | cur, c :: cs =>
    if c = ' ' then cur.reverse :: splitAux [] cs else splitAux (c :: cur) cs

/-- Go `strings.Split(s, " ")`: the pieces between single spaces; a string with
`n` spaces has `n + 1` pieces, empty pieces included. -/
def Split (s : Str) : List Str := splitAux [] s

/-- Close the field under construction (`cur`, reversed), if there is one. -/
def closeField (cur : Str) : List Str := if cur = [] then [] else [cur.reverse]

/-- Scanner of `strings.Fields`; `cur` is the current field, reversed. -/
def fieldsAux : Str → Str → List Str
  | cur, [] => closeField cur
  | cur, c :: cs =>
    if isSpace c then closeField cur ++ fieldsAux [] cs else fieldsAux (c :: cur) cs

/-- Go `strings.Fields`: the maximal runs of non-space characters, in order. -/
def Fields (s : Str) : List Str := fieldsAux [] s

/-- Go `strings.Join(ls, " ")`. -/
def Join : List Str → Str
  | [] => []
  | [a] => a
  | a :: b :: l => a ++ ' ' :: Join (b :: l)

/-- The words of a string as `AddText` sees them: the pieces between single
spaces, each trimmed with `TrimSpace`, the empty ones left out. -/
def tokens (s : Str) : List Str := ((Split s).map TrimSpace).filter (fun w => decide (w ≠ []))

/-- Bytes of a line that stand after its first space, the spaces themselves not
counted: the summed `len` of all pieces of `Split` but the first. -/
def restBytes (s : Str) : Nat := ((Split s).tail.map len).sum

/-! ## Machine integers and 26.6 fixed point -/

/-- Two's-complement wrap to a Go `int` (64 bit). -/
def wrapInt (z : Int) : Int :=
  (z + 9223372036854775808) % 18446744073709551616 - 9223372036854775808

/-- Two's-complement wrap to an `int32`, the representation of `fixed.Int26_6`. -/
def wrapInt32 (z : Int) : Int := (z + 2147483648) % 4294967296 - 2147483648

/-- The `fixed.Point26_6` type. -/
structure Point26_6 where
  X : Int
  Y : Int
  deriving DecidableEq, Repr

/-- The `image.Point` type. -/
structure Point where
  X : Int
  Y : Int
  deriving DecidableEq, Repr

/-- Go `fixed.I(i)`, that is `Int26_6(i << 6)`. -/
def fixedI (i : Int) : Int := wrapInt32 (wrapInt (i * 64))

/-- Go `fixed.P(x, y)`. -/
def fixedP (x y : Int) : Point26_6 := ⟨fixedI x, fixedI y⟩

/-! ## Floating point -/

/-- A `float64` value: a finite value written `m * 2 ^ e` (every finite
`float64` is such a dyadic number; `m = 0` is `+0`), negative zero, the
infinities and NaN. -/
inductive F64 where
  | fin (m : Int) (e : Int)
  | negZero
  | posInf
  | negInf
  | nan
  deriving DecidableEq

/-- Go `x == 0.0` on `float64`: true for both zeros, false for NaN. -/
def F64.isZero : F64 → Bool
  | .fin m _ => decide (m = 0)
  | .negZero => true
  | _ => false

/-- Go `x > 0` on `float64`. -/
def F64.isPos : F64 → Bool
  | .fin m _ => decide (0 < m)
  | .posInf => true
  | _ => false

/-- Go `x < 0` on `float64`. -/
def F64.isNeg : F64 → Bool
  | .fin m _ => decide (m < 0)
  | .negInf => true
  | _ => false

/-- The floating-point operations `AddText` uses, left uninterpreted. -/
structure FloatOps where
  mul : F64 → F64 → F64
  div : F64 → F64 → F64
  ceil : F64 → F64
  toInt : F64 → Int

/-! ## Colours and images -/

/-- The `color.Color` values that occur: `color.Gray16` and `color.RGBA`. -/
inductive Color where
  | Gray16 (y : Nat)
  | RGBA (r g b a : Nat)
  deriving DecidableEq, Repr

/-- The `image.Uniform` type. -/
structure Uniform where
  C : Color
  deriving DecidableEq, Repr

/-- Go `image.Black`. -/
def imageBlack : Uniform := ⟨.Gray16 0⟩

/-- Go `image.White`. -/
def imageWhite : Uniform := ⟨.Gray16 0xffff⟩

/-- Entry `colornames.Map["yellow"]`. -/
def colornamesYellow : Color := .RGBA 0xff 0xff 0x00 0xff

/-- The `image.Rectangle` type. -/
structure Rectangle where
  Min : Point
  Max : Point
  deriving DecidableEq, Repr

/-- Go `image.Rect`: the rectangle with the coordinates put in order. -/
def imageRect (x0 y0 x1 y1 : Int) : Rectangle :=
  ⟨⟨min x0 x1, min y0 y1⟩, ⟨max x0 x1, max y0 y1⟩⟩

/-- Go `(image.Point).In`. -/
def Rectangle.contains (r : Rectangle) (x y : Int) : Bool :=
  decide (r.Min.X ≤ x) && decide (x < r.Max.X) && decide (r.Min.Y ≤ y) && decide (y < r.Max.Y)

/-- An `image.RGBA`: its bounds and the colour stored at each position. -/
structure RGBA where
  Rect : Rectangle
  Pix : Int → Int → Color

/-- Go `color.RGBAModel.Convert` on the colours that occur. -/
def rgbaModel : Color → Color
  | .Gray16 y => .RGBA (y / 256) (y / 256) (y / 256) 0xff
  | .RGBA r g b a => .RGBA r g b a

/-- Go `(*image.RGBA).Set`: store the converted colour if the point is inside. -/
def RGBA.Set (m : RGBA) (x y : Int) (c : Color) : RGBA :=
  if m.Rect.contains x y then
    { m with Pix := fun a b => if a = x ∧ b = y then rgbaModel c else m.Pix a b }
  else m

/-- Go `image.NewRGBA`: all pixels transparent black. -/
def NewRGBA (r : Rectangle) : RGBA := ⟨r, fun _ _ => .RGBA 0 0 0 0⟩

/-- Go `draw.Draw(dst, dst.Bounds(), src, image.ZP, draw.Src)` for a uniform
source: every pixel inside the bounds becomes the source colour. -/
def drawUniformSrc (m : RGBA) (src : Uniform) : RGBA :=
  { m with Pix := fun a b => if m.Rect.contains a b then rgbaModel src.C else m.Pix a b }

/-- The zero value `&image.RGBA{}`. -/
def emptyRGBA : RGBA := ⟨⟨⟨0, 0⟩, ⟨0, 0⟩⟩, fun _ _ => .RGBA 0 0 0 0⟩

/-! ## The request -/

/-- The `DrawText` struct; `FontColor` is a pointer, `none` is `nil`. -/
structure DrawText where
  SrcImgPath : Str := []
  Dpi : F64 := .fin 0 0
  FontPath : Str := []
  Hinting : Str := []
  FontSize : F64 := .fin 0 0
  FontSpacing : F64 := .fin 0 0
  FontColorName : Str := []
  MaxCharsPerLine : Int := 0
  WhiteOnBlack : Bool := false
  TextTitle : Str := []
  FontColor : Option Uniform := none
  deriving DecidableEq

/-- Constant `DefaultDpi`. -/
def DefaultDpi : F64 := .fin 72 0
/-- Constant `DefaultFontFile`. -/
def DefaultFontFile : Str := "fonts/FFF_Tusj.ttf".toList
/-- Constant `DefaultHinting`. -/
def DefaultHinting : Str := "none".toList
/-- Constant `DefaultFontSize`. -/
def DefaultFontSize : F64 := .fin 12 0
/-- Constant `DefaultFontSpacing`. -/
def DefaultFontSpacing : F64 := .fin 5 (-2)
/-- Constant `DefaultMaxCharsPerLine`. -/
def DefaultMaxCharsPerLine : Int := 16
/-- Constant `DefaultTextPointX`. -/
def DefaultTextPointX : Int := 10

/-- Method `applyDefaultsIfNeeded`. -/
def applyDefaultsIfNeeded (d : DrawText) : DrawText :=
  let d := if d.Dpi.isZero then { d with Dpi := DefaultDpi } else d
  let d := if d.FontPath = [] then { d with FontPath := DefaultFontFile } else d
  let d := if d.Hinting = [] then { d with Hinting := DefaultHinting } else d
  let d := if d.FontSize.isZero then { d with FontSize := DefaultFontSize } else d
  let d := if d.FontSpacing.isZero then { d with FontSpacing := DefaultFontSpacing } else d
  let d := if d.MaxCharsPerLine = 0 then { d with MaxCharsPerLine := DefaultMaxCharsPerLine } else d
  d

/-- Method `SetFgColor`: three assignments in sequence, the last unconditional. -/
def SetFgColor (d : DrawText) : DrawText :=
  let d := if d.FontColorName ≠ [] then { d with FontColor := some ⟨colornamesYellow⟩ } else d
  let d := if d.WhiteOnBlack then { d with FontColor := some imageWhite } else d
  { d with FontColor := some imageBlack }

/-- Method `getBgColor`. -/
def getBgColor (d : DrawText) : Uniform :=
  if d.WhiteOnBlack then imageBlack else imageWhite

/-- The guide colour chosen in `CreateBgImage`. -/
def rulerColor (d : DrawText) : Color :=
  if d.WhiteOnBlack then .RGBA 0x22 0x22 0x22 0xff else .RGBA 0xdd 0xdd 0xdd 0xff

/-- Method `CreateBgImage`: the updated receiver and the canvas. -/
def CreateBgImage (d : DrawText) (imgW imgH : Int) : DrawText × RGBA :=
  let d := SetFgColor d
  let bg := getBgColor d
  let ruler := rulerColor d
  let rgba := NewRGBA (imageRect 0 0 imgW imgH)
  let rgba := drawUniformSrc rgba bg
  let rgba := (List.range 200).foldl
    (fun (m : RGBA) (i : Nat) => (m.Set 10 (10 + i) ruler).Set (10 + i) 10 ruler) rgba
  (d, rgba)

/-! ## The outside world -/

/-- A Go `error` value, by its message. -/
structure GoError where
  msg : Str
  deriving DecidableEq, Repr

/-- A parsed `truetype.Font`, by the path it was read from. -/
structure Font where
  src : Str
  deriving DecidableEq

/-- The `truetype.Options` handed to `truetype.NewFace`, with the font. -/
structure Face where
  font : Font
  Size : F64
  DPI : F64
  hintingFull : Bool
  deriving DecidableEq

/-- A `font.Drawer`: destination, source colour and face. -/
structure Drawer where
  Dst : RGBA
  Src : Option Uniform
  Face : Option Face

/-- One call of `(*font.Drawer).DrawString`: the `Dot` it starts at and the
string drawn. -/
structure DrawCall where
  Dot : Point26_6
  txt : Str
  deriving DecidableEq, Repr

/-- Results of the libraries and of the file system. -/
structure Env where
  /-- Floating-point arithmetic. -/
  fp : FloatOps
  /-- Result of `os.Open` followed by `png.Decode`: the decoded image when it is
  an `*image.RGBA` (`some`), a decoded image of another type (`none`), or the
  error of either call. -/
  decodePng : Str → Except GoError (Option RGBA)
  /-- Result of `ioutil.ReadFile` followed by `truetype.Parse`. -/
  readFont : Str → Except GoError Font
  /-- Result of `(*font.Drawer).MeasureString`, a `fixed.Int26_6`. -/
  measure : Option Face → Str → Int
  /-- Result of `os.Create`, `png.Encode` and `Flush` in `SaveImage`: the first
  error, if any. -/
  save : Str → Option GoError

/-- Method `GetFont`. -/
def GetFont (env : Env) (d : DrawText) : Except GoError Font :=
  env.readFont d.FontPath

/-- Method `LoadBgImage`: the updated receiver, the canvas and the error. -/
def LoadBgImage (env : Env) (d : DrawText) (imgpath : Str) : DrawText × RGBA × Option GoError :=
  if imgpath = [] then
    let r := CreateBgImage d 640 480
    (r.1, r.2, none)
  else
    let d := SetFgColor d
    match env.decodePng imgpath with
    | .error err => (d, emptyRGBA, some err)
    | .ok (some rgba) => (d, rgba, none)
    | .ok none => (d, emptyRGBA, some ⟨"Failed to convert loaded image to RGBA.".toList⟩)

/-- Method `GetFontDrawer`. -/
def GetFontDrawer (env : Env) (d : DrawText) (rgba : RGBA) : Drawer × Option GoError :=
  match GetFont env d with
  | .error errFont => (⟨emptyRGBA, none, none⟩, some errFont)
  | .ok f =>
    let h := decide (d.Hinting = "full".toList)
    (⟨rgba, d.FontColor, some ⟨f, d.FontSize, d.Dpi, h⟩⟩, none)

/-- Method `addLine`: set `drawer.Dot` to `fixed.P(x, y)` and draw `txt`. -/
def addLine (x y : Int) (txt : Str) : DrawCall := ⟨fixedP x y, txt⟩

/-- Local variables of the loop of `AddText`. -/
structure WrapState where
  s : Str
  nextS : Str
  currentLineLength : Int
  y : Int
  deriving DecidableEq

/-- Lines 203 to 210 of `AddText`, the end of a loop iteration that emits a
line: the single-word fallback, the `addLine` call and the reset. -/
def emitLine (dy : Int) (w s nextS : Str) (y : Int) : DrawCall × WrapState :=
  let p : Str × Str := if s = [] then (w, []) else (s, nextS)
  (addLine DefaultTextPointX y p.1,
   { s := p.2, nextS := p.2, currentLineLength := 0, y := wrapInt (y + dy) })

/-- The loop `for idx, w := range words` of `AddText`, from index `idx` on, as
the list of the `DrawString` calls it makes. -/
def wrapLoop (maxChars dy lastIndex : Int) : Nat → List Str → WrapState → List DrawCall
  | _, [], _ => []
  | idx, w :: ws, st =>
    let cll := st.currentLineLength + len w
    if cll < maxChars then
      let s := st.s ++ ' ' :: TrimSpace w
      if (idx : Int) < lastIndex then
        wrapLoop maxChars dy lastIndex (idx + 1) ws { st with s := s, currentLineLength := cll }
      else
        let r := emitLine dy w s st.nextS st.y
        r.1 :: wrapLoop maxChars dy lastIndex (idx + 1) ws r.2
    else
      if (idx : Int) = lastIndex then
        let r := emitLine dy w (TrimSpace w) w (wrapInt (st.y + dy))
        addLine DefaultTextPointX st.y st.s :: r.1 ::
          wrapLoop maxChars dy lastIndex (idx + 1) ws r.2
      else
        let r := emitLine dy w st.s w st.y
        r.1 :: wrapLoop maxChars dy lastIndex (idx + 1) ws r.2

/-- The starting baseline of `AddText`: `10 + int(math.Ceil(FontSize*Dpi/72))`. -/
def startY (fp : FloatOps) (d : DrawText) : Int :=
  wrapInt (10 + wrapInt (fp.toInt (fp.ceil (fp.div (fp.mul d.FontSize d.Dpi) (.fin 72 0)))))

/-- The line height of `AddText`:
`int(math.Ceil(FontSize * FontSpacing * Dpi / 72))`. -/
def lineDy (fp : FloatOps) (d : DrawText) : Int :=
  wrapInt (fp.toInt (fp.ceil
    (fp.div (fp.mul (fp.mul d.FontSize d.FontSpacing) d.Dpi) (.fin 72 0))))

/-- The `DrawString` call for the title, lines 176 to 180 of `AddText`. -/
def titleCall (env : Env) (d : DrawText) (drawer : Drawer) (max : Point) (y : Int) : DrawCall :=
  ⟨⟨Int.tdiv (wrapInt32 (fixedI max.X - wrapInt32 (env.measure drawer.Face d.TextTitle))) 2,
    fixedI y⟩, d.TextTitle⟩

/-- The body part of `AddText` (lines 184 to 211) with the cursor at `y`. -/
def bodyCalls (d : DrawText) (dy y : Int) (text : Str) : List DrawCall :=
  let words := Split text
  let lastIndex : Int := (words.length : Int) - 1
  wrapLoop d.MaxCharsPerLine dy lastIndex 0 words
    { s := [], nextS := [], currentLineLength := 0, y := y }

/-- Method `AddText`: the `DrawString` calls made on the drawer, in order, and
the returned error (always `nil`). -/
def AddText (env : Env) (d : DrawText) (drawer : Drawer) (max : Point) (text : Str) :
    List DrawCall × Option GoError :=
  let y := startY env.fp d
  let dy := lineDy env.fp d
  if d.TextTitle ≠ [] then
    (titleCall env d drawer max y :: bodyCalls d dy (wrapInt (y + dy)) text, none)
  else
    (bodyCalls d dy y text, none)

/-- The texts of a sequence of `DrawString` calls, in order. -/
def lineTexts (calls : List DrawCall) : List Str := calls.map DrawCall.txt

/-- Method `SaveImage`. -/
def SaveImage (env : Env) (outFilepath : Str) : Option GoError := env.save outFilepath

/-- What a call of `CreateImageWithText` leaves behind. -/
structure RunResult where
  /-- The receiver after the call. -/
  req : DrawText
  /-- The returned error. -/
  err : Option GoError
  /-- The `DrawString` calls made. -/
  draws : List DrawCall
  /-- Whether `SaveImage` was called. -/
  saveCalled : Bool
  /-- Whether `Wrote OK:` was printed. -/
  printed : Bool

/-- Method `CreateImageWithText`. -/
def CreateImageWithText (env : Env) (d : DrawText) (text saveAs : Str) : RunResult :=
  let d := applyDefaultsIfNeeded d
  match LoadBgImage env d d.SrcImgPath with
  | (d, _, some errImg) => ⟨d, some errImg, [], false, false⟩
  | (d, rgba, none) =>
    match GetFontDrawer env d rgba with
    | (_, some errDrawer) => ⟨d, some errDrawer, [], false, false⟩
    | (drawer, none) =>
      let r := AddText env d drawer rgba.Rect.Max text
      match SaveImage env saveAs with
      | some errSave => ⟨d, some errSave, r.1, true, false⟩
      | none => ⟨d, none, r.1, true, true⟩

/-! ## Reference values -/

/-- The `Dot` of the `k`-th of a run of lines that starts at baseline `y` and
advances by `dy`. -/
def dotAt (dy y : Int) (k : Nat) : Point26_6 := fixedP DefaultTextPointX (y + k * dy)

/-- The Go `int` value `y0 + k * dy` of the cursor of `AddText` after `k`
strings. -/
def cursorAt (fp : FloatOps) (d : DrawText) (k : Nat) : Int :=
  wrapInt (startY fp d + k * lineDy fp d)

/-- Floating-point operations for evaluating examples: exact on dyadic operands
whose result is dyadic, NaN elsewhere. -/
def sampleOps : FloatOps where
  mul := fun a b =>
    match a, b with
    | .fin m e, .fin n f => .fin (m * n) (e + f)
    | _, _ => .nan
  div := fun a b =>
    match a, b with
    | .fin m e, .fin n f => if n ≠ 0 ∧ m % n = 0 then .fin (m / n) (e - f) else .nan
    | _, _ => .nan
  ceil := fun a =>
    match a with
    | .fin m e => if 0 ≤ e then .fin m e else .fin (-((-m) / 2 ^ (-e).toNat)) 0
    | x => x
  toInt := fun a =>
    match a with
    | .fin m e => if 0 ≤ e then m * 2 ^ e.toNat else 0
    | _ => 0

/-- A world for evaluating examples: no background file can be opened, every
font file parses, a string measures 7 pixels per character, saving succeeds. -/
def sampleEnv : Env where
  fp := sampleOps
  decodePng := fun _ => .error ⟨"open: no such file or directory".toList⟩
  readFont := fun p => .ok ⟨p⟩
  measure := fun _ t => 448 * t.length
  save := fun _ => none

/-- A drawer for evaluating examples. -/
def sampleDrawer : Drawer := ⟨emptyRGBA, some imageBlack, none⟩

/-- A request for evaluating examples: the defaults, as `applyDefaultsIfNeeded`
leaves a zero request. -/
def sampleRequest : DrawText := applyDefaultsIfNeeded {}

/-- Go `(color.Color).RGBA`: the 16-bit channels of a colour. -/
def colorRGBA : Color → Nat × Nat × Nat × Nat
  | .Gray16 y => (y, y, y, 0xffff)
  | .RGBA r g b a => (r * 257, g * 257, b * 257, a * 257)

/-- The background stage of `CreateImageWithText`: `LoadBgImage` on the request
with the defaults applied. -/
def stageBg (env : Env) (d : DrawText) : DrawText × RGBA × Option GoError :=
  LoadBgImage env (applyDefaultsIfNeeded d) (applyDefaultsIfNeeded d).SrcImgPath

/-- The font stage of `CreateImageWithText`: `GetFontDrawer` on the receiver
and canvas left by the background stage. -/
def stageFont (env : Env) (d : DrawText) : Drawer × Option GoError :=
  GetFontDrawer env (stageBg env d).1 (stageBg env d).2.1

/-- The summed `len` of a list of words. -/
def sumLen (ws : List Str) : Nat := (ws.map len).sum

/-! ## Facts about the string functions -/

theorem TrimSpace_eq (s : Str) :
    TrimSpace s = (s.dropWhile isSpace).rdropWhile isSpace := rfl

theorem isSpace_space : isSpace ' ' = true := by decide

theorem fieldsAux_append_space (c : Char) (hc : isSpace c = true) (b : Str) :
    ∀ (a cur : Str), fieldsAux cur (a ++ c :: b) = fieldsAux cur a ++ fieldsAux [] b := by
  intro a
  induction a with
  | nil => intro cur; simp [fieldsAux, hc]
  | cons x a ih =>
    intro cur
    by_cases hx : isSpace x = true
    · simp [fieldsAux, hx, ih]
    · simp [fieldsAux, hx, ih]

theorem Fields_append_space (a b : Str) :
    Fields (a ++ ' ' :: b) = Fields a ++ Fields b :=
  fieldsAux_append_space ' ' isSpace_space b a []

theorem fieldsAux_concat_space (c : Char) (hc : isSpace c = true) (a cur : Str) :
    fieldsAux cur (a ++ [c]) = fieldsAux cur a := by
  have h := fieldsAux_append_space c hc [] a cur
  simpa [fieldsAux, closeField] using h

theorem Fields_dropWhile (a : Str) : Fields (a.dropWhile isSpace) = Fields a := by
  induction a with
  | nil => rfl
  | cons x a ih =>
    by_cases hx : isSpace x = true
    · rw [List.dropWhile_cons_of_pos hx, ih]
      simp [Fields, fieldsAux, hx, closeField]
    · rw [List.dropWhile_cons_of_neg hx]

theorem Fields_rdropWhile (a : Str) : Fields (a.rdropWhile isSpace) = Fields a := by
  induction a using List.reverseRecOn with
  | nil => rfl
  | append_singleton l x ih =>
    by_cases hx : isSpace x = true
    · rw [List.rdropWhile_concat_pos _ _ _ hx, ih]
      exact (fieldsAux_concat_space x hx l []).symm
    · rw [List.rdropWhile_concat_neg _ _ _ hx]

theorem Fields_TrimSpace (w : Str) : Fields (TrimSpace w) = Fields w := by
  rw [TrimSpace_eq, Fields_rdropWhile, Fields_dropWhile]

theorem Fields_nil : Fields [] = [] := rfl

theorem Fields_Join (ls : List Str) : Fields (Join ls) = ls.flatMap Fields := by
  induction ls with
  | nil => rfl
  | cons a l ih =>
    cases l with
    | nil => simp [Join]
    | cons b l => simp only [Join, Fields_append_space, ih, List.flatMap_cons]

theorem splitAux_ne_nil : ∀ (t cur : Str), splitAux cur t ≠ [] := by
  intro t
  induction t with
  | nil => intro cur; simp [splitAux]
  | cons c cs ih =>
    intro cur
    by_cases hc : c = ' '
    · simp [splitAux, hc]
    · simp [splitAux, hc, ih]

theorem Split_ne_nil (t : Str) : Split t ≠ [] := splitAux_ne_nil t []

theorem Join_cons_of_ne_nil (a : Str) {l : List Str} (h : l ≠ []) :
    Join (a :: l) = a ++ ' ' :: Join l := by
  cases l with
  | nil => exact absurd rfl h
  | cons b l => rfl

theorem Join_splitAux : ∀ (t cur : Str), Join (splitAux cur t) = cur.reverse ++ t := by
  intro t
  induction t with
  | nil => intro cur; simp [splitAux, Join]
  | cons c cs ih =>
    intro cur
    by_cases hc : c = ' '
    · subst hc
      simp only [splitAux, if_true]
      rw [Join_cons_of_ne_nil _ (splitAux_ne_nil cs []), ih]
      simp
    · simp [splitAux, hc, ih]

/-- Joining the pieces of `Split` with single spaces gives the string back. -/
theorem Join_Split (t : Str) : Join (Split t) = t := by
  simpa [Split] using Join_splitAux t []

theorem Fields_eq_flatMap_Split (t : Str) : Fields t = (Split t).flatMap Fields := by
  rw [← Fields_Join, Join_Split]

theorem splitAux_of_not_mem : ∀ (t cur : Str), ' ' ∉ t → splitAux cur t = [cur.reverse ++ t] := by
  intro t
  induction t with
  | nil => intro cur _; simp [splitAux]
  | cons c cs ih =>
    intro cur h
    have hc : c ≠ ' ' := fun e => h (by simp [e])
    have hcs : ' ' ∉ cs := fun e => h (by simp [e])
    simp [splitAux, hc, ih _ hcs]

theorem Split_of_not_mem (t : Str) (h : ' ' ∉ t) : Split t = [t] := by
  simpa [Split] using splitAux_of_not_mem t [] h

theorem splitAux_append_space (t : Str) (ht : ' ' ∉ t) :
    ∀ (s cur : Str), splitAux cur (s ++ ' ' :: t) = splitAux cur s ++ [t] := by
  intro s
  induction s with
  | nil => intro cur; simp [splitAux, splitAux_of_not_mem t [] ht]
  | cons c cs ih =>
    intro cur
    by_cases hc : c = ' '
    · simp [splitAux, hc, ih]
    · simp [splitAux, hc, ih]

theorem Split_append_space (s t : Str) (ht : ' ' ∉ t) :
    Split (s ++ ' ' :: t) = Split s ++ [t] :=
  splitAux_append_space t ht s []

theorem not_mem_of_mem_splitAux : ∀ (t cur : Str), ' ' ∉ cur →
    ∀ w ∈ splitAux cur t, ' ' ∉ w := by
  intro t
  induction t with
  | nil => intro cur hcur w hw; simp [splitAux] at hw; subst hw; simpa using hcur
  | cons c cs ih =>
    intro cur hcur w hw
    by_cases hc : c = ' '
    · simp only [splitAux, hc, if_true, List.mem_cons] at hw
      rcases hw with hw | hw
      · subst hw; simpa using hcur
      · exact ih [] (by simp) w hw
    · simp only [splitAux, hc, if_false] at hw
      refine ih (c :: cur) ?_ w hw
      simp only [List.mem_cons, not_or]
      exact ⟨fun e => hc e.symm, hcur⟩

/-- No piece of `Split` contains a space. -/
theorem not_mem_of_mem_Split (t : Str) : ∀ w ∈ Split t, ' ' ∉ w :=
  not_mem_of_mem_splitAux t [] (by simp)

theorem TrimSpace_sublist (w : Str) : (TrimSpace w).Sublist w := by
  rw [TrimSpace_eq]
  exact ((List.rdropWhile_prefix isSpace _).sublist).trans (List.dropWhile_sublist isSpace)

theorem not_mem_TrimSpace {w : Str} (h : ' ' ∉ w) : ' ' ∉ TrimSpace w :=
  fun e => h ((TrimSpace_sublist w).subset e)

theorem len_TrimSpace_le (w : Str) : len (TrimSpace w) ≤ len w := by
  unfold len
  exact ((TrimSpace_sublist w).map _).sum_le_sum (fun _ _ => Nat.zero_le _)

theorem len_pos_of_ne_nil {w : Str} (h : w ≠ []) : 0 < len w := by
  cases w with
  | nil => exact absurd rfl h
  | cons c cs =>
    have := Char.utf8Size_pos c
    simp [len]; omega

theorem not_head_of_dropWhile_eq_cons {x : Char} {r : Str} :
    ∀ (w : Str), w.dropWhile isSpace = x :: r → ¬ isSpace x = true := by
  intro w
  induction w with
  | nil => intro h; simp at h
  | cons a w ih =>
    intro h
    by_cases ha : isSpace a = true
    · rw [List.dropWhile_cons_of_pos ha] at h; exact ih h
    · rw [List.dropWhile_cons_of_neg ha] at h
      have : a = x := by injection h
      exact this ▸ ha

theorem TrimSpace_idem (w : Str) : TrimSpace (TrimSpace w) = TrimSpace w := by
  have hfix : (TrimSpace w).dropWhile isSpace = TrimSpace w := by
    have hpre : TrimSpace w <+: w.dropWhile isSpace := by
      rw [TrimSpace_eq]; exact List.rdropWhile_prefix isSpace _
    cases hr : TrimSpace w with
    | nil => rfl
    | cons x r =>
      rw [hr] at hpre
      obtain ⟨t, ht⟩ := hpre
      have hx : ¬ isSpace x = true := not_head_of_dropWhile_eq_cons w (by simpa using ht.symm)
      exact List.dropWhile_cons_of_neg hx
  conv_lhs => rw [TrimSpace_eq, hfix]
  rw [TrimSpace_eq, List.rdropWhile_idempotent]

theorem tokens_nil : tokens [] = [] := by decide

theorem TrimSpace_nil : TrimSpace [] = [] := rfl

theorem tokens_of_not_mem {w : Str} (h : ' ' ∉ w) :
    tokens w = if TrimSpace w = [] then [] else [TrimSpace w] := by
  unfold tokens
  rw [Split_of_not_mem w h]
  by_cases ht : TrimSpace w = [] <;> simp [ht]

theorem tokens_append_space (s w : Str) (h : ' ' ∉ w) :
    tokens (s ++ ' ' :: TrimSpace w) = tokens s ++ tokens w := by
  rw [tokens_of_not_mem h]
  unfold tokens
  rw [Split_append_space s _ (not_mem_TrimSpace h)]
  by_cases ht : TrimSpace w = [] <;> simp [ht, TrimSpace_idem, TrimSpace_nil]

theorem tokens_TrimSpace (w : Str) (h : ' ' ∉ w) : tokens (TrimSpace w) = tokens w := by
  rw [tokens_of_not_mem h, tokens_of_not_mem (not_mem_TrimSpace h), TrimSpace_idem]

theorem filter_map_eq_flatMap_tokens : ∀ (l : List Str), (∀ w ∈ l, ' ' ∉ w) →
    (l.map TrimSpace).filter (fun w => decide (w ≠ [])) = l.flatMap tokens := by
  intro l
  induction l with
  | nil => intro _; rfl
  | cons a l ih =>
    intro h
    have ha : ' ' ∉ a := h a (by simp)
    have hl : ∀ w ∈ l, ' ' ∉ w := fun w hw => h w (by simp [hw])
    rw [List.flatMap_cons, ← ih hl, tokens_of_not_mem ha]
    by_cases ht : TrimSpace a = [] <;> simp [ht]

theorem tokens_eq_flatMap_Split (t : Str) : tokens t = (Split t).flatMap tokens :=
  filter_map_eq_flatMap_tokens (Split t) (not_mem_of_mem_Split t)

/-! ## The wrapping loop -/

theorem addLine_txt (x y : Int) (t : Str) : (addLine x y t).txt = t := rfl

theorem emitLine_txt (dy : Int) (w s nextS : Str) (y : Int) :
    (emitLine dy w s nextS y).1.txt = if s = [] then w else s := by
  unfold emitLine addLine
  by_cases h : s = [] <;> simp [h]

theorem emitLine_s (dy : Int) (w s nextS : Str) (y : Int) :
    (emitLine dy w s nextS y).2.s = if s = [] then [] else nextS := by
  unfold emitLine
  by_cases h : s = [] <;> simp [h]

theorem emitLine_cll (dy : Int) (w s nextS : Str) (y : Int) :
    (emitLine dy w s nextS y).2.currentLineLength = 0 := rfl

theorem emitLine_y (dy : Int) (w s nextS : Str) (y : Int) :
    (emitLine dy w s nextS y).2.y = wrapInt (y + dy) := rfl

theorem emitLine_dot (dy : Int) (w s nextS : Str) (y : Int) :
    (emitLine dy w s nextS y).1.Dot = fixedP DefaultTextPointX y := rfl

/-- Word preservation of the loop for any way `F` of reading the words of a
string that ignores the separating space and the trimming: the words read from
the emitted lines are those of the pending line followed by those of the
remaining pieces. -/
theorem wrapLoop_words {X : Type} (F : Str → List X) (hnil : F [] = [])
    (happ : ∀ s w, ' ' ∉ w → F (s ++ ' ' :: TrimSpace w) = F s ++ F w)
    (htrim : ∀ w, ' ' ∉ w → F (TrimSpace w) = F w)
    (maxChars dy lastIndex : Int) :
    ∀ (ws : List Str) (idx : Nat) (st : WrapState), (∀ w ∈ ws, ' ' ∉ w) → ws ≠ [] →
      (idx : Int) + ws.length = lastIndex + 1 →
      (lineTexts (wrapLoop maxChars dy lastIndex idx ws st)).flatMap F
        = F st.s ++ ws.flatMap F := by
  intro ws
  induction ws with
  | nil => intro idx st _ h; exact absurd rfl h
  | cons w ws ih =>
    intro idx st hws _ hidx
    have hw : ' ' ∉ w := hws w (by simp)
    have hws2 : ∀ v ∈ ws, ' ' ∉ v := fun v hv => hws v (by simp [hv])
    have hne : st.s ++ ' ' :: TrimSpace w ≠ [] := by simp
    by_cases hlast : ws = []
    · subst hlast
      have hi : (idx : Int) = lastIndex := by simp at hidx; omega
      have hnlt : ¬ ((idx : Int) < lastIndex) := by omega
      by_cases hb : st.currentLineLength + (len w : Int) < maxChars
      · simp [wrapLoop, hb, hnlt, lineTexts, emitLine_txt, happ _ _ hw]
      · by_cases ht : TrimSpace w = []
        · simp [wrapLoop, hb, hi, lineTexts, emitLine_txt, addLine_txt, ht]
        · simp [wrapLoop, hb, hi, lineTexts, emitLine_txt, addLine_txt, ht, htrim _ hw]
    · have hlt : (idx : Int) < lastIndex := by
        have : 0 < ws.length := List.length_pos.mpr hlast
        simp at hidx; omega
      have hni : ¬ ((idx : Int) = lastIndex) := by omega
      have hidx2 : ((idx + 1 : Nat) : Int) + ws.length = lastIndex + 1 := by
        simp at hidx ⊢; omega
      by_cases hb : st.currentLineLength + (len w : Int) < maxChars
      · simp only [wrapLoop, hb, hlt, if_true]
        rw [ih _ _ hws2 hlast hidx2]
        simp [happ _ _ hw]
      · simp only [wrapLoop, hb, hni, if_false]
        simp only [lineTexts, List.map_cons, List.flatMap_cons] at ih ⊢
        have := ih (idx + 1) (emitLine dy w st.s w st.y).2 hws2 hlast hidx2
        simp only [lineTexts] at this
        rw [this, emitLine_txt, emitLine_s]
        by_cases hs : st.s = []
        · simp [hs, hnil]
        · simp [hs]

theorem restBytes_nil : restBytes [] = 0 := by decide

theorem restBytes_of_not_mem {w : Str} (h : ' ' ∉ w) : restBytes w = 0 := by
  simp [restBytes, Split_of_not_mem w h]

theorem restBytes_append_space (s t : Str) (ht : ' ' ∉ t) :
    restBytes (s ++ ' ' :: t) = restBytes s + len t := by
  unfold restBytes
  rw [Split_append_space s t ht, List.tail_append_of_ne_nil (Split_ne_nil s)]
  simp

/-- Budget of the loop: when the pending line has at most `currentLineLength`
bytes after its first space and that count is below the budget, every emitted
line has fewer than `maxChars` bytes after its first space. -/
theorem wrapLoop_restBytes (maxChars dy lastIndex : Int) (hN : 0 < maxChars) :
    ∀ (ws : List Str) (idx : Nat) (st : WrapState), (∀ w ∈ ws, ' ' ∉ w) →
      (idx : Int) + ws.length = lastIndex + 1 →
      (restBytes st.s : Int) ≤ st.currentLineLength → st.currentLineLength < maxChars →
      ∀ l ∈ lineTexts (wrapLoop maxChars dy lastIndex idx ws st), (restBytes l : Int) < maxChars := by
  intro ws
  induction ws with
  | nil => intro idx st _ _ _ _ l hl; simp [wrapLoop, lineTexts] at hl
  | cons w ws ih =>
    intro idx st hws hidx hrest hcll l hl
    have hw : ' ' ∉ w := hws w (by simp)
    have hws2 : ∀ v ∈ ws, ' ' ∉ v := fun v hv => hws v (by simp [hv])
    have hne : st.s ++ ' ' :: TrimSpace w ≠ [] := by simp
    have hadd : (restBytes (st.s ++ ' ' :: TrimSpace w) : Int)
        ≤ st.currentLineLength + (len w : Int) := by
      rw [restBytes_append_space _ _ (not_mem_TrimSpace hw)]
      have := len_TrimSpace_le w
      push_cast
      omega
    have hw0 : (restBytes w : Int) = 0 := by simp [restBytes_of_not_mem hw]
    have ht0 : (restBytes (TrimSpace w) : Int) = 0 := by
      simp [restBytes_of_not_mem (not_mem_TrimSpace hw)]
    by_cases hlast : ws = []
    · subst hlast
      have hi : (idx : Int) = lastIndex := by simp at hidx; omega
      have hnlt : ¬ ((idx : Int) < lastIndex) := by omega
      by_cases hb : st.currentLineLength + (len w : Int) < maxChars
      · simp [wrapLoop, hb, hnlt, lineTexts, emitLine_txt] at hl
        subst hl; omega
      · by_cases ht : TrimSpace w = []
        · simp [wrapLoop, hb, hi, lineTexts, emitLine_txt, addLine_txt, ht] at hl
          rcases hl with hl | hl <;> subst hl <;> omega
        · simp [wrapLoop, hb, hi, lineTexts, emitLine_txt, addLine_txt, ht] at hl
          rcases hl with hl | hl <;> subst hl <;> omega
    · have hlt : (idx : Int) < lastIndex := by
        have : 0 < ws.length := List.length_pos.mpr hlast
        simp at hidx; omega
      have hni : ¬ ((idx : Int) = lastIndex) := by omega
      have hidx2 : ((idx + 1 : Nat) : Int) + ws.length = lastIndex + 1 := by
        simp at hidx ⊢; omega
      by_cases hb : st.currentLineLength + (len w : Int) < maxChars
      · simp only [wrapLoop, hb, hlt, if_true] at hl
        exact ih _ _ hws2 hidx2 hadd hb l hl
      · simp only [wrapLoop, hb, hni, if_false, lineTexts, List.map_cons, List.mem_cons] at hl
        rcases hl with hl | hl
        · rw [emitLine_txt] at hl
          by_cases hs : st.s = []
          · simp [hs] at hl; subst hl; omega
          · simp [hs] at hl; subst hl; omega
        · refine ih (idx + 1) (emitLine dy w st.s w st.y).2 hws2 hidx2 ?_ ?_ l hl
          · rw [emitLine_s, emitLine_cll]
            by_cases hs : st.s = []
            · simp [hs, restBytes_nil]
            · simp [hs, restBytes_of_not_mem hw]
          · rw [emitLine_cll]; exact hN

theorem bodyCalls_restBytes (d : DrawText) (dy y : Int) (text : Str) (hN : 0 < d.MaxCharsPerLine) :
    ∀ l ∈ lineTexts (bodyCalls d dy y text), (restBytes l : Int) < d.MaxCharsPerLine := by
  unfold bodyCalls
  refine wrapLoop_restBytes _ _ _ hN _ _ _ (not_mem_of_mem_Split text) ?_ ?_ hN
  · simp
  · simp [restBytes_nil]

theorem bodyCalls_words {X : Type} (F : Str → List X) (hnil : F [] = [])
    (happ : ∀ s w, ' ' ∉ w → F (s ++ ' ' :: TrimSpace w) = F s ++ F w)
    (htrim : ∀ w, ' ' ∉ w → F (TrimSpace w) = F w)
    (d : DrawText) (dy y : Int) (text : Str) :
    (lineTexts (bodyCalls d dy y text)).flatMap F = (Split text).flatMap F := by
  unfold bodyCalls
  rw [wrapLoop_words F hnil happ htrim _ _ _ _ _ _ (not_mem_of_mem_Split text) (Split_ne_nil text)]
  · simp [hnil]
  · simp

/-! ## The vertical cursor -/

theorem fixedI_wrapInt (z : Int) : fixedI (wrapInt z) = fixedI z := by
  unfold fixedI wrapInt wrapInt32
  omega

theorem fixedI_wrapInt_add (a b : Int) : fixedI (wrapInt a + b) = fixedI (a + b) := by
  unfold fixedI wrapInt wrapInt32
  omega

theorem fixedP_wrapInt (x y : Int) : fixedP x (wrapInt y) = fixedP x y := by
  unfold fixedP
  rw [fixedI_wrapInt]

theorem dotAt_zero (dy y : Int) : dotAt dy y 0 = fixedP DefaultTextPointX y := by
  simp [dotAt]

theorem dotAt_succ (dy y : Int) (k : Nat) :
    dotAt dy (wrapInt (y + dy)) k = dotAt dy y (k + 1) := by
  unfold dotAt fixedP
  have h : fixedI (wrapInt (y + dy) + (k : Int) * dy) = fixedI (y + ((k + 1 : Nat) : Int) * dy) := by
    rw [fixedI_wrapInt_add]
    congr 1
    push_cast
    ring
  rw [h]

theorem dots_cons (dy y : Int) (c : DrawCall) (L : List DrawCall)
    (hc : c.Dot = fixedP DefaultTextPointX y)
    (hL : L.map DrawCall.Dot = (List.range L.length).map (dotAt dy (wrapInt (y + dy)))) :
    (c :: L).map DrawCall.Dot = (List.range (c :: L).length).map (dotAt dy y) := by
  rw [List.length_cons, List.range_succ_eq_map, List.map_cons, List.map_cons, List.map_map, hL,
    hc, dotAt_zero]
  congr 1
  apply List.map_congr_left
  intro k _
  exact dotAt_succ dy y k

/-- Every line of the loop is drawn at x origin 10, the `k`-th emitted line at
baseline `y + k * dy`, in Go `int` arithmetic. -/
theorem wrapLoop_dots (maxChars dy lastIndex : Int) :
    ∀ (ws : List Str) (idx : Nat) (st : WrapState),
      (wrapLoop maxChars dy lastIndex idx ws st).map DrawCall.Dot
        = (List.range (wrapLoop maxChars dy lastIndex idx ws st).length).map (dotAt dy st.y) := by
  intro ws
  induction ws with
  | nil => intro idx st; simp [wrapLoop]
  | cons w ws ih =>
    intro idx st
    by_cases hb : st.currentLineLength + (len w : Int) < maxChars
    · by_cases hlt : (idx : Int) < lastIndex
      · simp only [wrapLoop, hb, hlt, if_true]
        exact ih _ _
      · simp only [wrapLoop, hb, hlt, if_true, if_false]
        exact dots_cons dy st.y _ _ (emitLine_dot _ _ _ _ _) (ih _ _)
    · by_cases hi : (idx : Int) = lastIndex
      · simp only [wrapLoop, hb, hi, if_true, if_false]
        refine dots_cons dy st.y _ _ rfl ?_
        refine dots_cons dy (wrapInt (st.y + dy)) _ _ (emitLine_dot _ _ _ _ _) ?_
        exact ih _ _
      · simp only [wrapLoop, hb, hi, if_false]
        exact dots_cons dy st.y _ _ (emitLine_dot _ _ _ _ _) (ih _ _)

theorem bodyCalls_dots (d : DrawText) (dy y : Int) (text : Str) :
    (bodyCalls d dy y text).map DrawCall.Dot
      = (List.range (bodyCalls d dy y text).length).map (dotAt dy y) := by
  unfold bodyCalls
  exact wrapLoop_dots _ _ _ _ _ _

theorem fixedI_ten : fixedI DefaultTextPointX = 640 := by decide

/-! ## The texts do not depend on the cursor -/

theorem emitLine_nextS (dy : Int) (w s nextS : Str) (y : Int) :
    (emitLine dy w s nextS y).2.nextS = (emitLine dy w s nextS y).2.s := rfl

theorem wrapLoop_texts_cursor (maxChars dy dy2 lastIndex : Int) :
    ∀ (ws : List Str) (idx : Nat) (st st2 : WrapState), st.s = st2.s → st.nextS = st2.nextS →
      st.currentLineLength = st2.currentLineLength →
      lineTexts (wrapLoop maxChars dy lastIndex idx ws st)
        = lineTexts (wrapLoop maxChars dy2 lastIndex idx ws st2) := by
  intro ws
  induction ws with
  | nil => intro idx st st2 _ _ _; simp [wrapLoop]
  | cons w ws ih =>
    intro idx st st2 hs hn hc
    have he : ∀ (a b : Str) (y y2 : Int),
        lineTexts (wrapLoop maxChars dy lastIndex (idx + 1) ws (emitLine dy w a b y).2)
          = lineTexts (wrapLoop maxChars dy2 lastIndex (idx + 1) ws (emitLine dy2 w a b y2).2) :=
      fun a b y y2 => ih _ _ _ (by rw [emitLine_s, emitLine_s])
        (by rw [emitLine_nextS, emitLine_nextS, emitLine_s, emitLine_s]) rfl
    by_cases hb : st.currentLineLength + (len w : Int) < maxChars
    · have hb2 : st2.currentLineLength + (len w : Int) < maxChars := hc ▸ hb
      by_cases hlt : (idx : Int) < lastIndex
      · simp only [wrapLoop, hb, hb2, hlt, if_true]
        exact ih _ _ _ (by simp [hs]) hn (by simp [hc])
      · simp only [wrapLoop, hb, hb2, hlt, if_true, if_false]
        simp only [lineTexts, List.map_cons, emitLine_txt] at he ⊢
        rw [hs, hn, he]
    · have hb2 : ¬ st2.currentLineLength + (len w : Int) < maxChars := hc ▸ hb
      by_cases hi : (idx : Int) = lastIndex
      · simp only [wrapLoop, hb, hb2, hi, if_true, if_false]
        simp only [lineTexts, List.map_cons, emitLine_txt, addLine_txt] at he ⊢
        rw [hs, he]
      · simp only [wrapLoop, hb, hb2, hi, if_false]
        simp only [lineTexts, List.map_cons, emitLine_txt] at he ⊢
        rw [hs, he]

/-- The texts of the body lines depend on the budget and the text only. -/
theorem bodyCalls_texts (d : DrawText) (dy y : Int) (text : Str) :
    lineTexts (bodyCalls d dy y text)
      = lineTexts (bodyCalls { MaxCharsPerLine := d.MaxCharsPerLine } 0 0 text) := by
  unfold bodyCalls
  exact wrapLoop_texts_cursor _ _ _ _ _ _ _ _ rfl rfl rfl

theorem AddText_calls (env : Env) (d : DrawText) (drawer : Drawer) (max : Point) (text : Str) :
    (AddText env d drawer max text).1 =
      if d.TextTitle ≠ [] then
        titleCall env d drawer max (startY env.fp d) ::
          bodyCalls d (lineDy env.fp d) (wrapInt (startY env.fp d + lineDy env.fp d)) text
      else bodyCalls d (lineDy env.fp d) (startY env.fp d) text := by
  unfold AddText
  by_cases h : d.TextTitle = [] <;> simp [h]

/-! ## Word wrapping: claims C1 to C5 -/

/-- C1, word preservation in `AddText`: for every request, every cursor and
every body text (any `MaxCharsPerLine`, zero and negative included), joining
the body lines passed to `addLine`, in emission order, with spaces and splitting
the result on white space gives exactly the white-space separated words of the
text: the same words in the same order. -/
theorem C1_word_preservation (d : DrawText) (dy y : Int) (text : Str) :
    Fields (Join (lineTexts (bodyCalls d dy y text))) = Fields text := by
  rw [Fields_Join, Fields_eq_flatMap_Split text]
  exact bodyCalls_words Fields Fields_nil
    (fun s w _ => by rw [Fields_append_space, Fields_TrimSpace])
    (fun w _ => Fields_TrimSpace w) d dy y text

/-- C2 refuted as stated: with budget 5 the text `aaaa bbbb cccc` gives the
lines ` aaaa` and `bbbb cccc`; the second has 9 bytes, 8 of them outside the
space, and holds two words, so it is over the budget without being a single
overlong word; with budget 3 the text `a b` gives the one line ` a b` of 4
bytes. -/
theorem C2_counterexample :
    lineTexts (bodyCalls { MaxCharsPerLine := 5 } 15 22 "aaaa bbbb cccc".toList)
        = [" aaaa".toList, "bbbb cccc".toList] ∧
      len "bbbb cccc".toList = 9 ∧
      Fields "bbbb cccc".toList = ["bbbb".toList, "cccc".toList] ∧
      ¬ (∀ l ∈ lineTexts (bodyCalls { MaxCharsPerLine := 5 } 15 22 "aaaa bbbb cccc".toList),
          (len l : Int) ≤ 5 ∨ ∃ w, Fields l = [w] ∧ 5 < (len w : Int)) ∧
      lineTexts (bodyCalls { MaxCharsPerLine := 3 } 15 22 "a b".toList) = [" a b".toList] ∧
      len " a b".toList = 4 := by
  refine ⟨by decide, by decide, by decide, ?_, by decide, by decide⟩
  intro h
  have h1 := h "bbbb cccc".toList (by decide)
  rcases h1 with h1 | ⟨w, hw, _⟩
  · revert h1; decide
  · rw [show Fields "bbbb cccc".toList = ["bbbb".toList, "cccc".toList] by decide] at hw
    simp at hw

/-- C2 as amended, the line budget of `AddText`: for every body text and every
`MaxCharsPerLine = N > 0`, every body line passed to `addLine` has fewer than
`N` bytes after its first space, the spaces themselves not counted.  A line
built up by the accumulator begins with the separating space, so all of its
words are bounded; of a line that begins with a word carried over or emitted
alone, only the words after the first are covered. -/
theorem C2_line_budget (d : DrawText) (dy y : Int) (text : Str) (hN : 0 < d.MaxCharsPerLine) :
    ∀ l ∈ lineTexts (bodyCalls d dy y text), (restBytes l : Int) < d.MaxCharsPerLine :=
  bodyCalls_restBytes d dy y text hN

/-- C2 as amended, at budget 5 and the text `aaaa bbbb cccc`. -/
theorem C2_line_budget_witness :
    (0 : Int) < 5 ∧
      ∀ l ∈ lineTexts (bodyCalls { MaxCharsPerLine := 5 } 15 22 "aaaa bbbb cccc".toList),
        (restBytes l : Int) < 5 :=
  ⟨by decide, C2_line_budget { MaxCharsPerLine := 5 } 15 22 "aaaa bbbb cccc".toList (by decide)⟩

/-- C3 refuted as stated: the first of the two lines is ` a b`, with the
separating space in front, not `a b`. -/
theorem C3_counterexample :
    lineTexts (AddText sampleEnv { sampleRequest with MaxCharsPerLine := 3 } sampleDrawer
        ⟨640, 480⟩ "a b c".toList).1 ≠ ["a b".toList, "c".toList] := by
  decide

/-- C3 as amended: `AddText` with body `a b c`, `MaxCharsPerLine = 3` and an
empty `TextTitle` draws exactly two strings, in order: ` a b` (the accumulator,
which begins with the separating space) and `c`. -/
theorem C3_scenario (env : Env) (d : DrawText) (drawer : Drawer) (max : Point)
    (hN : d.MaxCharsPerLine = 3) (hT : d.TextTitle = []) :
    lineTexts (AddText env d drawer max "a b c".toList).1 = [" a b".toList, "c".toList] := by
  rw [AddText_calls, if_neg (by simp [hT]), bodyCalls_texts, hN]
  decide

/-- C3 as amended, in the sample world. -/
theorem C3_scenario_witness :
    lineTexts (AddText sampleEnv { sampleRequest with MaxCharsPerLine := 3 } sampleDrawer
        ⟨640, 480⟩ "a b c".toList).1 = [" a b".toList, "c".toList] :=
  C3_scenario sampleEnv { sampleRequest with MaxCharsPerLine := 3 } sampleDrawer ⟨640, 480⟩
    (by decide) (by decide)

/-- C4 refuted as stated: for the empty body, title `Hi` and budget 16,
`AddText` draws two strings, the title and a line holding one space: `addLine`
is called once. -/
theorem C4_counterexample :
    lineTexts (AddText sampleEnv { sampleRequest with TextTitle := "Hi".toList } sampleDrawer
        ⟨640, 480⟩ []).1 = ["Hi".toList, " ".toList] ∧
      lineTexts (bodyCalls { MaxCharsPerLine := 16 } 15 22 []) = [" ".toList] := by
  decide

/-- C4 as amended, the empty body in `AddText`: for body text `""` and any
`MaxCharsPerLine > 0`, `addLine` is called exactly once, at x origin 10 and the
current baseline, with the string of one space, which holds no word; so with an
empty `TextTitle` one blank string is drawn, and with a non-empty `TextTitle`
exactly two strings, the title and then the blank line. -/
theorem C4_empty_body (env : Env) (d : DrawText) (drawer : Drawer) (max : Point)
    (hN : 0 < d.MaxCharsPerLine) :
    (∀ dy y : Int, bodyCalls d dy y [] = [addLine 10 y [' ']]) ∧
      Fields [' '] = [] ∧
      (d.TextTitle = [] →
        (AddText env d drawer max []).1 = [addLine 10 (startY env.fp d) [' ']]) ∧
      (d.TextTitle ≠ [] →
        (AddText env d drawer max []).1 =
          [titleCall env d drawer max (startY env.fp d),
            addLine 10 (wrapInt (startY env.fp d + lineDy env.fp d)) [' ']]) := by
  have hb : ∀ dy y : Int, bodyCalls d dy y [] = [addLine 10 y [' ']] := by
    intro dy y
    simp [bodyCalls, Split, splitAux, wrapLoop, len, hN, emitLine, TrimSpace_nil,
      DefaultTextPointX]
  refine ⟨hb, by decide, ?_, ?_⟩
  · intro hT
    rw [AddText_calls, if_neg (by simp [hT]), hb]
  · intro hT
    rw [AddText_calls, if_pos hT, hb]

/-- C4 as amended, at the default request with title `Hi`. -/
theorem C4_empty_body_witness :
    (0 : Int) < 16 ∧
      (AddText sampleEnv { sampleRequest with TextTitle := "Hi".toList } sampleDrawer
        ⟨640, 480⟩ []).1 =
        [⟨⟨20032, 1408⟩, "Hi".toList⟩, ⟨⟨640, 2368⟩, " ".toList⟩] :=
  ⟨by decide,
    ((C4_empty_body sampleEnv { sampleRequest with TextTitle := "Hi".toList } sampleDrawer
      ⟨640, 480⟩ (by decide)).2.2.2 (by decide)).trans (by decide)⟩

/-- C5 at the failing input: with budget 3 the text `a bbbbbb c` gives the
lines ` a` and `bbbbbb c`: the word `bbbbbb`, of 6 bytes, is kept whole but
shares its line with the word `c`. -/
theorem C5_overlong_word_shares_line :
    lineTexts (bodyCalls { MaxCharsPerLine := 3 } 15 22 "a bbbbbb c".toList)
        = [" a".toList, "bbbbbb c".toList] ∧
      len "bbbbbb".toList = 6 ∧
      tokens "a bbbbbb c".toList = ["a".toList, "bbbbbb".toList, "c".toList] ∧
      tokens "bbbbbb c".toList = ["bbbbbb".toList, "c".toList] := by
  decide

/-- Words are never split, and a long word starts its line: for every body text
and every `MaxCharsPerLine = N > 0`, the words of the emitted lines (the pieces
between single spaces, trimmed, empty ones left out), in order, are exactly the
words of the text; and every piece of a line after the first space of that line
is shorter than `N` bytes, so a word of `N` bytes or more always stands at the
very start of its line. -/
theorem overlong_word_starts_line (d : DrawText) (dy y : Int) (text : Str)
    (hN : 0 < d.MaxCharsPerLine) :
    (lineTexts (bodyCalls d dy y text)).flatMap tokens = tokens text ∧
      ∀ l ∈ lineTexts (bodyCalls d dy y text), ∀ v ∈ (Split l).tail,
        (len v : Int) < d.MaxCharsPerLine := by
  constructor
  · rw [tokens_eq_flatMap_Split text]
    exact bodyCalls_words tokens tokens_nil tokens_append_space tokens_TrimSpace d dy y text
  · intro l hl v hv
    have h := bodyCalls_restBytes d dy y text hN l hl
    have hle : len v ≤ restBytes l := by
      unfold restBytes
      exact List.single_le_sum (fun _ _ => Nat.zero_le _) _ (List.mem_map_of_mem len hv)
    omega

/-- The previous statement at budget 3 and the text `a bbbbbb c`. -/
theorem overlong_word_starts_line_witness :
    (0 : Int) < 3 ∧
      (lineTexts (bodyCalls { MaxCharsPerLine := 3 } 15 22 "a bbbbbb c".toList)).flatMap tokens
        = tokens "a bbbbbb c".toList ∧
      ∀ l ∈ lineTexts (bodyCalls { MaxCharsPerLine := 3 } 15 22 "a bbbbbb c".toList),
        ∀ v ∈ (Split l).tail, (len v : Int) < 3 :=
  ⟨by decide,
    overlong_word_starts_line { MaxCharsPerLine := 3 } 15 22 "a bbbbbb c".toList (by decide)⟩

/-! ## Colours and defaults: claims C6 and C7 -/

/-- C6 at the failing input: with `WhiteOnBlack` set, `SetFgColor` leaves the
foreground `image.Black`, not `image.White`, while `getBgColor` is
`image.Black` as well. -/
theorem C6_white_on_black_foreground :
    (SetFgColor { WhiteOnBlack := true }).FontColor = some imageBlack ∧
      (SetFgColor { WhiteOnBlack := true }).FontColor ≠ some imageWhite ∧
      getBgColor (SetFgColor { WhiteOnBlack := true }) = imageBlack := by
  decide

/-- C7, defaults: after `applyDefaultsIfNeeded` each of `Dpi`, `FontPath`,
`Hinting`, `FontSize`, `FontSpacing` and `MaxCharsPerLine` that was zero or
empty holds its default (72, `fonts/FFF_Tusj.ttf`, `none`, 12, 1.25, 16), each
of them that was not is unchanged, and so is every other field. -/
theorem C7_defaults (d : DrawText) :
    applyDefaultsIfNeeded d =
      { d with
        Dpi := if d.Dpi.isZero then .fin 72 0 else d.Dpi
        FontPath := if d.FontPath = [] then "fonts/FFF_Tusj.ttf".toList else d.FontPath
        Hinting := if d.Hinting = [] then "none".toList else d.Hinting
        FontSize := if d.FontSize.isZero then .fin 12 0 else d.FontSize
        FontSpacing := if d.FontSpacing.isZero then .fin 5 (-2) else d.FontSpacing
        MaxCharsPerLine := if d.MaxCharsPerLine = 0 then 16 else d.MaxCharsPerLine } := by
  unfold applyDefaultsIfNeeded DefaultDpi DefaultFontFile DefaultHinting DefaultFontSize
    DefaultFontSpacing DefaultMaxCharsPerLine
  by_cases h1 : d.Dpi.isZero = true <;> by_cases h2 : d.FontPath = [] <;>
    by_cases h3 : d.Hinting = [] <;> by_cases h4 : d.FontSize.isZero = true <;>
    by_cases h5 : d.FontSpacing.isZero = true <;> by_cases h6 : d.MaxCharsPerLine = 0 <;>
    simp [h1, h2, h3, h4, h5, h6]

/-! ## Positions: claims C8 and C9 -/

theorem wrapInt_wrapInt (z : Int) : wrapInt (wrapInt z) = wrapInt z := by
  unfold wrapInt
  omega

theorem ys_of_dots (dy y : Int) (L : List DrawCall)
    (h : L.map DrawCall.Dot = (List.range L.length).map (dotAt dy y)) :
    L.map (fun c => c.Dot.Y)
      = (List.range L.length).map (fun k : Nat => fixedI (y + (k : Int) * dy)) := by
  have h2 := congrArg (List.map Point26_6.Y) h
  rw [List.map_map, List.map_map] at h2
  exact h2

theorem xs_of_dots (dy y : Int) (L : List DrawCall)
    (h : L.map DrawCall.Dot = (List.range L.length).map (dotAt dy y)) :
    L.map (fun c => c.Dot.X) = List.replicate L.length 640 := by
  have h2 := congrArg (List.map Point26_6.X) h
  rw [List.map_map, List.map_map] at h2
  have h3 : (List.range L.length).map (Point26_6.X ∘ dotAt dy y)
      = (List.range L.length).map (fun _ => (640 : Int)) := by
    apply List.map_congr_left
    intro k _
    exact fixedI_ten
  rw [h3, List.map_const', List.length_range] at h2
  exact h2

theorem fixedI_cursorAt (fp : FloatOps) (d : DrawText) (k : Nat) :
    fixedI (cursorAt fp d k) = fixedI (startY fp d + (k : Int) * lineDy fp d) := by
  unfold cursorAt
  rw [fixedI_wrapInt]

theorem AddText_ys (env : Env) (d : DrawText) (drawer : Drawer) (max : Point) (text : Str) :
    (AddText env d drawer max text).1.map (fun c => c.Dot.Y)
      = (List.range (AddText env d drawer max text).1.length).map
          (fun k : Nat => fixedI (cursorAt env.fp d k)) := by
  rw [AddText_calls]
  by_cases hT : d.TextTitle = []
  · rw [if_neg (by simp [hT]), ys_of_dots _ _ _ (bodyCalls_dots d _ _ text)]
    apply List.map_congr_left
    intro k _
    rw [fixedI_cursorAt]
  · rw [if_pos hT, List.length_cons, List.range_succ_eq_map, List.map_cons, List.map_cons,
      List.map_map, ys_of_dots _ _ _ (bodyCalls_dots d _ _ text)]
    congr 1
    · rw [fixedI_cursorAt]; simp [titleCall]
    · apply List.map_congr_left
      intro k _
      simp only [Function.comp]
      rw [fixedI_cursorAt, fixedI_wrapInt_add]
      congr 1
      push_cast
      ring

theorem cursorAt_step (fp : FloatOps) (d : DrawText) (k : Nat) :
    wrapInt (cursorAt fp d (k + 1) - cursorAt fp d k) = lineDy fp d := by
  have hdy : wrapInt (lineDy fp d) = lineDy fp d := by
    unfold lineDy
    rw [wrapInt_wrapInt]
  have hk : ((k + 1 : Nat) : Int) * lineDy fp d = (k : Int) * lineDy fp d + lineDy fp d := by
    push_cast
    ring
  unfold cursorAt
  rw [hk]
  generalize (k : Int) * lineDy fp d = a
  generalize lineDy fp d = b at hdy ⊢
  generalize startY fp d = c
  unfold wrapInt at hdy ⊢
  omega

theorem getD_map_range (f : Nat → Int) (n k : Nat) (h : k < n) :
    ((List.range n).map f).getD k 0 = f k := by
  simp [List.getD_eq_getElem?_getD, List.getElem?_map, List.getElem?_range h]

theorem fixedI_step (a b : Int) : fixedI (a + b) = wrapInt32 (fixedI a + 64 * b) := by
  unfold fixedI wrapInt wrapInt32
  omega

theorem fixedI_exact (z : Int) (h0 : 0 ≤ z) (h1 : z < 33554432) : fixedI z = 64 * z := by
  unfold fixedI wrapInt wrapInt32
  omega

theorem wrapInt_exact (z : Int) (h0 : 0 ≤ z) (h1 : z < 9223372036854775808) : wrapInt z = z := by
  unfold wrapInt
  omega

/-- The body lines of `AddText`, the strings after the title, are drawn at x
origin 640. -/
theorem AddText_body_xs (env : Env) (d : DrawText) (drawer : Drawer) (max : Point) (text : Str) :
    ((AddText env d drawer max text).1.drop (if d.TextTitle ≠ [] then 1 else 0)).map
        (fun c => c.Dot.X)
      = List.replicate
          ((AddText env d drawer max text).1.length - (if d.TextTitle ≠ [] then 1 else 0)) 640 := by
  rw [AddText_calls]
  by_cases hT : d.TextTitle = []
  · simp only [hT, ne_eq, not_true_eq_false, if_false, List.drop_zero, Nat.sub_zero]
    exact xs_of_dots _ _ _ (bodyCalls_dots d _ _ text)
  · simp only [ne_eq, hT, not_false_eq_true, if_true, List.drop_succ_cons, List.drop_zero,
      List.length_cons, Nat.add_sub_cancel]
    exact xs_of_dots _ _ _ (bodyCalls_dots d _ _ text)

/-- C8, the vertical cursor of `AddText`.  Let `c0` be
`int(math.Ceil(FontSize * Dpi / 72))` and `dy` be
`int(math.Ceil(FontSize * FontSpacing * Dpi / 72))`, so that `y0 = 10 + c0`.
Then the `k`-th string drawn, the title counted as the first when there is
one, has baseline `fixed.I(y0 + k * dy)`, the sums taken in Go `int`
arithmetic; the baselines of two consecutive strings differ by `dy` pixels,
that is by `64 * dy` in 26.6 units of `int32`; when `c0` and `dy` are not
negative and `y0 + k * dy` is below `2 ^ 25` pixels nothing wraps and the
`k`-th baseline is exactly `64 * (10 + c0 + k * dy)`, two consecutive ones
differing by exactly `64 * dy`; and every body line, each string after the
title, is drawn at x origin `fixed.I(10) = 640`. -/
theorem C8_vertical_cursor (env : Env) (d : DrawText) (drawer : Drawer) (max : Point)
    (text : Str) (c0 dy : Int)
    (hc0 : c0 = env.fp.toInt (env.fp.ceil
      (env.fp.div (env.fp.mul d.FontSize d.Dpi) (.fin 72 0))))
    (hdy : dy = env.fp.toInt (env.fp.ceil
      (env.fp.div (env.fp.mul (env.fp.mul d.FontSize d.FontSpacing) d.Dpi) (.fin 72 0)))) :
    (AddText env d drawer max text).1.map (fun c => c.Dot.Y)
        = (List.range (AddText env d drawer max text).1.length).map
            (fun k : Nat => fixedI (wrapInt (10 + wrapInt c0) + (k : Int) * wrapInt dy)) ∧
      (∀ k : Nat, k + 1 < (AddText env d drawer max text).1.length →
        ((AddText env d drawer max text).1.map (fun c => c.Dot.Y)).getD (k + 1) 0
          = wrapInt32 (((AddText env d drawer max text).1.map (fun c => c.Dot.Y)).getD k 0
              + 64 * wrapInt dy)) ∧
      (∀ k : Nat, k < (AddText env d drawer max text).1.length →
        0 ≤ c0 → 0 ≤ dy → 10 + c0 + (k : Int) * dy < 33554432 →
        ((AddText env d drawer max text).1.map (fun c => c.Dot.Y)).getD k 0
          = 64 * (10 + c0 + (k : Int) * dy)) ∧
      (∀ k : Nat, k + 1 < (AddText env d drawer max text).1.length →
        0 ≤ c0 → 0 ≤ dy → 10 + c0 + ((k : Int) + 1) * dy < 33554432 →
        ((AddText env d drawer max text).1.map (fun c => c.Dot.Y)).getD (k + 1) 0
          - ((AddText env d drawer max text).1.map (fun c => c.Dot.Y)).getD k 0 = 64 * dy) ∧
      ((AddText env d drawer max text).1.drop (if d.TextTitle ≠ [] then 1 else 0)).map
          (fun c => c.Dot.X)
        = List.replicate
            ((AddText env d drawer max text).1.length - (if d.TextTitle ≠ [] then 1 else 0))
            (fixedI 10) ∧
      fixedI 10 = 640 := by
  have hys : (AddText env d drawer max text).1.map (fun c => c.Dot.Y)
      = (List.range (AddText env d drawer max text).1.length).map
          (fun k : Nat => fixedI (wrapInt (10 + wrapInt c0) + (k : Int) * wrapInt dy)) := by
    rw [AddText_ys]
    apply List.map_congr_left
    intro k _
    rw [fixedI_cursorAt, hc0, hdy]
    rfl
  have hexact : ∀ k : Nat, k < (AddText env d drawer max text).1.length →
      0 ≤ c0 → 0 ≤ dy → 10 + c0 + (k : Int) * dy < 33554432 →
      ((AddText env d drawer max text).1.map (fun c => c.Dot.Y)).getD k 0
        = 64 * (10 + c0 + (k : Int) * dy) := by
    intro k hk h0 h1 h2
    rw [hys, getD_map_range _ _ _ hk]
    have hkd : 0 ≤ (k : Int) * dy := mul_nonneg (Int.ofNat_nonneg k) h1
    have hc : wrapInt c0 = c0 := wrapInt_exact c0 h0 (by omega)
    have hy : wrapInt (10 + c0) = 10 + c0 := wrapInt_exact _ (by omega) (by omega)
    have hmul : (k : Int) * wrapInt dy = (k : Int) * dy := by
      rcases Nat.eq_zero_or_pos k with hk0 | hk0
      · subst hk0; simp
      · have hle : dy ≤ (k : Int) * dy := by
          have h1k : (1 : Int) ≤ (k : Int) := by exact_mod_cast hk0
          nlinarith
        rw [wrapInt_exact dy h1 (by omega)]
    rw [hc, hy, hmul]
    exact fixedI_exact _ (by omega) (by omega)
  refine ⟨hys, ?_, hexact, ?_, ?_, by decide⟩
  · intro k hk
    rw [hys, getD_map_range _ _ _ hk, getD_map_range _ _ _ (by omega)]
    have hk1 : (((k + 1 : Nat) : Int)) * wrapInt dy = (k : Int) * wrapInt dy + wrapInt dy := by
      push_cast
      ring
    rw [hk1, ← add_assoc, fixedI_step]
  · intro k hk h0 h1 h2
    have hkd : 0 ≤ (k : Int) * dy := mul_nonneg (Int.ofNat_nonneg k) h1
    have e1 := hexact (k + 1) hk h0 h1 (by push_cast; exact h2)
    have e0 := hexact k (by omega) h0 h1 (by
      have : ((k : Int) + 1) * dy = (k : Int) * dy + dy := by ring
      omega)
    rw [e1, e0]
    push_cast
    ring
  · rw [show fixedI 10 = 640 by decide]
    exact AddText_body_xs env d drawer max text

/-- C8 on the request of `example/usage.go` (font size 18, the other fields
defaulted: 72 dpi, spacing 1.25) with title `Hi` and the text `a bbbbbb c` at
budget 3: `c0 = 18`, `dy = ceil(22.5) = 23`, and the three strings drawn have
the baselines `64 * 28`, `64 * 51` and `64 * 74`. -/
theorem C8_vertical_cursor_witness :
    (18 : Int) = sampleOps.toInt (sampleOps.ceil
        (sampleOps.div (sampleOps.mul (.fin 18 0) (.fin 72 0)) (.fin 72 0))) ∧
      (23 : Int) = sampleOps.toInt (sampleOps.ceil
        (sampleOps.div (sampleOps.mul (sampleOps.mul (.fin 18 0) (.fin 5 (-2))) (.fin 72 0))
          (.fin 72 0))) ∧
      (AddText sampleEnv
          { sampleRequest with FontSize := .fin 18 0, MaxCharsPerLine := 3,
                               TextTitle := "Hi".toList }
          sampleDrawer ⟨640, 480⟩ "a bbbbbb c".toList).1.map (fun c => c.Dot.Y)
        = [1792, 3264, 4736] ∧
      (1792 : Int) = 64 * (10 + 18 + 0 * 23) ∧ (3264 : Int) = 64 * (10 + 18 + 1 * 23) ∧
      (4736 : Int) = 64 * (10 + 18 + 2 * 23) :=
  ⟨by decide, by decide,
    ((C8_vertical_cursor sampleEnv
        { sampleRequest with FontSize := .fin 18 0, MaxCharsPerLine := 3,
                             TextTitle := "Hi".toList }
        sampleDrawer ⟨640, 480⟩ "a bbbbbb c".toList 18 23 (by decide) (by decide)).1).trans
      (by decide),
    by decide, by decide, by decide⟩

/-- C9, title centering in `AddText`: when `TextTitle` is not empty the title is
the first string drawn, at x origin `(fixed.I(max.X) - MeasureString(title)) / 2`
in `int32` 26.6 arithmetic and at the starting baseline `fixed.I(y0)`, and the
strings after it are exactly the body lines, so it is drawn once as the title;
its call is the same for every body text and every `MaxCharsPerLine`; for a
canvas narrower than `2 ^ 24` pixels and a measured width in `[0, 2 ^ 30)` the x
origin is `(64 * max.X - MeasureString(title)) / 2` exactly.  When `TextTitle`
is empty the strings drawn are exactly the body lines. -/
theorem C9_title_centering (env : Env) (d : DrawText) (drawer : Drawer) (max : Point)
    (text : Str) :
    (d.TextTitle ≠ [] →
      (AddText env d drawer max text).1 =
          ⟨⟨Int.tdiv (wrapInt32 (fixedI max.X
              - wrapInt32 (env.measure drawer.Face d.TextTitle))) 2,
            fixedI (startY env.fp d)⟩, d.TextTitle⟩ ::
            bodyCalls d (lineDy env.fp d) (wrapInt (startY env.fp d + lineDy env.fp d)) text ∧
        (∀ (text2 : Str) (n2 : Int),
          (AddText env { d with MaxCharsPerLine := n2 } drawer max text2).1.head?
            = (AddText env d drawer max text).1.head?) ∧
        (0 ≤ max.X → max.X < 16777216 → 0 ≤ env.measure drawer.Face d.TextTitle →
          env.measure drawer.Face d.TextTitle < 1073741824 →
          wrapInt32 (fixedI max.X - wrapInt32 (env.measure drawer.Face d.TextTitle))
            = 64 * max.X - env.measure drawer.Face d.TextTitle)) ∧
    (d.TextTitle = [] →
      (AddText env d drawer max text).1
        = bodyCalls d (lineDy env.fp d) (startY env.fp d) text) := by
  constructor
  · intro hT
    refine ⟨?_, ?_, ?_⟩
    · rw [AddText_calls, if_pos hT]
      rfl
    · intro text2 n2
      rw [AddText_calls, AddText_calls, if_pos hT, if_pos (by simpa using hT)]
      rfl
    · intro h1 h2 h3 h4
      unfold fixedI wrapInt wrapInt32
      omega
  · intro hT
    rw [AddText_calls, if_neg (by simp [hT])]

/-- C9 in the sample world: on a canvas 640 wide the title `Hi`, measured 896,
is drawn first at x origin `(40960 - 896) / 2 = 20032` and baseline
`64 * 22 = 1408`. -/
theorem C9_title_centering_witness :
    (AddText sampleEnv { sampleRequest with TextTitle := "Hi".toList } sampleDrawer
        ⟨640, 480⟩ "a b c".toList).1.head? = some ⟨⟨20032, 1408⟩, "Hi".toList⟩ := by
  rw [((C9_title_centering sampleEnv { sampleRequest with TextTitle := "Hi".toList }
    sampleDrawer ⟨640, 480⟩ "a b c".toList).1 (by decide)).1]
  decide

/-! ## The request that reaches the layout: claim C10 -/

theorem LoadBgImage_req (env : Env) (d : DrawText) (imgpath : Str) :
    (LoadBgImage env d imgpath).1 = SetFgColor d := by
  unfold LoadBgImage
  by_cases h : imgpath = []
  · simp [h, CreateBgImage]
  · simp only [h, if_false]
    cases env.decodePng imgpath with
    | error e => rfl
    | ok r => cases r <;> rfl

/-- The receiver after `CreateImageWithText`, on every path, is the request
with the defaults applied and the foreground colour set; `AddText`, when it
runs, runs on this value. -/
theorem CreateImageWithText_req (env : Env) (d : DrawText) (text saveAs : Str) :
    (CreateImageWithText env d text saveAs).req = SetFgColor (applyDefaultsIfNeeded d) := by
  have h := LoadBgImage_req env (applyDefaultsIfNeeded d) (applyDefaultsIfNeeded d).SrcImgPath
  simp only [CreateImageWithText]
  rcases hL : LoadBgImage env (applyDefaultsIfNeeded d) (applyDefaultsIfNeeded d).SrcImgPath
    with ⟨d2, rgba, e⟩
  rw [hL] at h
  simp only at h
  subst h
  cases e with
  | some e => rfl
  | none =>
    simp only
    rcases hG : GetFontDrawer env (SetFgColor (applyDefaultsIfNeeded d)) rgba with ⟨dr, e2⟩
    cases e2 with
    | some e2 => rfl
    | none =>
      simp only
      cases SaveImage env saveAs <;> rfl

theorem SetFgColor_fields (d : DrawText) :
    (SetFgColor d).Dpi = d.Dpi ∧ (SetFgColor d).FontSize = d.FontSize ∧
      (SetFgColor d).MaxCharsPerLine = d.MaxCharsPerLine := by
  unfold SetFgColor
  by_cases h1 : d.FontColorName = [] <;> by_cases h2 : d.WhiteOnBlack = true <;> simp [h1, h2]

theorem F64_isPos_of (x : F64) (hz : x.isZero = false) (hn : x.isNeg = false) (hnan : x ≠ .nan) :
    x.isPos = true := by
  cases x with
  | fin m e =>
    simp only [F64.isZero, F64.isNeg, F64.isPos, decide_eq_false_iff_not, decide_eq_true_eq] at *
    omega
  | negZero => simp [F64.isZero] at hz
  | posInf => rfl
  | negInf => simp [F64.isNeg] at hn
  | nan => exact absurd rfl hnan

/-- C10 refuted as stated: a request with `MaxCharsPerLine = -3`,
`FontSize = -5` and `Dpi = NaN` passes `applyDefaultsIfNeeded` unchanged in
these fields, and `CreateImageWithText` runs the layout and returns `nil` with
a request in which none of the three is positive. -/
theorem C10_counterexample :
    (CreateImageWithText sampleEnv
        { MaxCharsPerLine := -3, FontSize := .fin (-5) 0, Dpi := .nan }
        "a b".toList "out.png".toList).req.MaxCharsPerLine = -3 ∧
      (CreateImageWithText sampleEnv
        { MaxCharsPerLine := -3, FontSize := .fin (-5) 0, Dpi := .nan }
        "a b".toList "out.png".toList).req.FontSize.isPos = false ∧
      (CreateImageWithText sampleEnv
        { MaxCharsPerLine := -3, FontSize := .fin (-5) 0, Dpi := .nan }
        "a b".toList "out.png".toList).req.Dpi.isPos = false ∧
      (CreateImageWithText sampleEnv
        { MaxCharsPerLine := -3, FontSize := .fin (-5) 0, Dpi := .nan }
        "a b".toList "out.png".toList).err = none ∧
      lineTexts (CreateImageWithText sampleEnv
        { MaxCharsPerLine := -3, FontSize := .fin (-5) 0, Dpi := .nan }
        "a b".toList "out.png".toList).draws = ["a".toList, [], "b".toList] := by
  decide

/-- C10 as amended, the request invariant: for every caller-constructed
`DrawText`, the request left by `CreateImageWithText`, which is the one the
layout consumes, has `Dpi`, `FontSize` and `MaxCharsPerLine` different from
zero: a zero is replaced by the default (72, 12, 16) and every other value is
kept as the caller gave it, a negative one or NaN included; so each of the
three is positive when the caller's value is not negative and not NaN. -/
theorem C10_request_nonzero (env : Env) (d : DrawText) (text saveAs : Str) :
    ((CreateImageWithText env d text saveAs).req.Dpi.isZero = false ∧
      (CreateImageWithText env d text saveAs).req.FontSize.isZero = false ∧
      (CreateImageWithText env d text saveAs).req.MaxCharsPerLine ≠ 0) ∧
    ((CreateImageWithText env d text saveAs).req.Dpi
        = (if d.Dpi.isZero then .fin 72 0 else d.Dpi) ∧
      (CreateImageWithText env d text saveAs).req.FontSize
        = (if d.FontSize.isZero then .fin 12 0 else d.FontSize) ∧
      (CreateImageWithText env d text saveAs).req.MaxCharsPerLine
        = (if d.MaxCharsPerLine = 0 then 16 else d.MaxCharsPerLine)) ∧
    ((d.Dpi.isNeg = false → d.Dpi ≠ .nan →
        (CreateImageWithText env d text saveAs).req.Dpi.isPos = true) ∧
      (d.FontSize.isNeg = false → d.FontSize ≠ .nan →
        (CreateImageWithText env d text saveAs).req.FontSize.isPos = true) ∧
      (0 ≤ d.MaxCharsPerLine → 0 < (CreateImageWithText env d text saveAs).req.MaxCharsPerLine)) := by
  rw [CreateImageWithText_req]
  obtain ⟨e1, e2, e3⟩ := SetFgColor_fields (applyDefaultsIfNeeded d)
  rw [e1, e2, e3]
  have hD : (applyDefaultsIfNeeded d).Dpi = (if d.Dpi.isZero then .fin 72 0 else d.Dpi) := by
    unfold applyDefaultsIfNeeded DefaultDpi
    by_cases h1 : d.Dpi.isZero = true <;> by_cases h2 : d.FontPath = [] <;>
      by_cases h3 : d.Hinting = [] <;> by_cases h4 : d.FontSize.isZero = true <;>
      by_cases h5 : d.FontSpacing.isZero = true <;> by_cases h6 : d.MaxCharsPerLine = 0 <;>
      simp [h1, h2, h3, h4, h5, h6]
  have hF : (applyDefaultsIfNeeded d).FontSize
      = (if d.FontSize.isZero then .fin 12 0 else d.FontSize) := by
    unfold applyDefaultsIfNeeded DefaultFontSize
    by_cases h1 : d.Dpi.isZero = true <;> by_cases h2 : d.FontPath = [] <;>
      by_cases h3 : d.Hinting = [] <;> by_cases h4 : d.FontSize.isZero = true <;>
      by_cases h5 : d.FontSpacing.isZero = true <;> by_cases h6 : d.MaxCharsPerLine = 0 <;>
      simp [h1, h2, h3, h4, h5, h6]
  have hM : (applyDefaultsIfNeeded d).MaxCharsPerLine
      = (if d.MaxCharsPerLine = 0 then 16 else d.MaxCharsPerLine) := by
    unfold applyDefaultsIfNeeded DefaultMaxCharsPerLine
    by_cases h1 : d.Dpi.isZero = true <;> by_cases h2 : d.FontPath = [] <;>
      by_cases h3 : d.Hinting = [] <;> by_cases h4 : d.FontSize.isZero = true <;>
      by_cases h5 : d.FontSpacing.isZero = true <;> by_cases h6 : d.MaxCharsPerLine = 0 <;>
      simp [h1, h2, h3, h4, h5, h6]
  rw [hD, hF, hM]
  have zD : (if d.Dpi.isZero then F64.fin 72 0 else d.Dpi).isZero = false := by
    by_cases h : d.Dpi.isZero = true
    · rw [if_pos h]; rfl
    · rw [if_neg h]; exact Bool.eq_false_iff.mpr h
  have zF : (if d.FontSize.isZero then F64.fin 12 0 else d.FontSize).isZero = false := by
    by_cases h : d.FontSize.isZero = true
    · rw [if_pos h]; rfl
    · rw [if_neg h]; exact Bool.eq_false_iff.mpr h
  have zM : (if d.MaxCharsPerLine = 0 then (16 : Int) else d.MaxCharsPerLine) ≠ 0 := by
    by_cases h : d.MaxCharsPerLine = 0
    · rw [if_pos h]; decide
    · rw [if_neg h]; exact h
  refine ⟨⟨zD, zF, zM⟩, ⟨rfl, rfl, rfl⟩, ?_, ?_, ?_⟩
  · intro hn hnan
    by_cases h : d.Dpi.isZero = true
    · rw [if_pos h]; rfl
    · rw [if_neg h]
      exact F64_isPos_of _ (Bool.eq_false_iff.mpr h) hn hnan
  · intro hn hnan
    by_cases h : d.FontSize.isZero = true
    · rw [if_pos h]; rfl
    · rw [if_neg h]
      exact F64_isPos_of _ (Bool.eq_false_iff.mpr h) hn hnan
  · intro h0
    by_cases h : d.MaxCharsPerLine = 0
    · rw [if_pos h]; decide
    · rw [if_neg h]
      omega

/-! ## The foreground colour: claims C11 and C17 -/

/-- The last assignment of `SetFgColor` decides: the foreground is
`image.Black` for every request. -/
theorem SetFgColor_FontColor (d : DrawText) : (SetFgColor d).FontColor = some imageBlack := by
  unfold SetFgColor
  by_cases h1 : d.FontColorName = [] <;> by_cases h2 : d.WhiteOnBlack = true <;> simp [h1, h2]

theorem SetFgColor_WhiteOnBlack (d : DrawText) :
    (SetFgColor d).WhiteOnBlack = d.WhiteOnBlack := by
  unfold SetFgColor
  by_cases h1 : d.FontColorName = [] <;> by_cases h2 : d.WhiteOnBlack = true <;> simp [h1, h2]

theorem SetFgColor_FontPath (d : DrawText) : (SetFgColor d).FontPath = d.FontPath := by
  unfold SetFgColor
  by_cases h1 : d.FontColorName = [] <;> by_cases h2 : d.WhiteOnBlack = true <;> simp [h1, h2]

/-- C11, the named-colour hint is inert: two requests that differ only in
`FontColorName` leave `SetFgColor` with the same `FontColor`, and with every
other field but the hint equal as well. -/
theorem C11_color_name_inert (d : DrawText) (name : Str) :
    (SetFgColor { d with FontColorName := name }).FontColor = (SetFgColor d).FontColor ∧
      SetFgColor { d with FontColorName := name }
        = { SetFgColor d with FontColorName := name } := by
  constructor
  · rw [SetFgColor_FontColor, SetFgColor_FontColor]
  · unfold SetFgColor
    by_cases h0 : name = [] <;> by_cases h1 : d.FontColorName = [] <;>
      by_cases h2 : d.WhiteOnBlack = true <;> simp [h0, h1, h2]

/-- C17, the foreground equals the background under white-on-black: after
`SetFgColor` the `FontColor` is `image.Black` whatever `FontColorName` and
`WhiteOnBlack` are; and when `WhiteOnBlack` is set, the canvas is synthesised
(empty path) and the font loads, the `Src` of the drawer that `GetFontDrawer`
builds is the fill colour that `getBgColor` returns. -/
theorem C17_foreground_is_background (env : Env) (d : DrawText) :
    (SetFgColor d).FontColor = some imageBlack ∧
      (d.WhiteOnBlack = true → (GetFont env d).isOk = true →
        (GetFontDrawer env (LoadBgImage env d []).1 (LoadBgImage env d []).2.1).1.Src
          = some (getBgColor (LoadBgImage env d []).1)) := by
  refine ⟨SetFgColor_FontColor d, ?_⟩
  intro hW hF
  have hreq : (LoadBgImage env d []).1 = SetFgColor d := by
    simp [LoadBgImage, CreateBgImage]
  rw [hreq]
  have hbg : getBgColor (SetFgColor d) = imageBlack := by
    unfold getBgColor
    rw [SetFgColor_WhiteOnBlack, hW]
    rfl
  rw [hbg]
  unfold GetFontDrawer GetFont at *
  rw [SetFgColor_FontPath]
  cases hr : env.readFont d.FontPath with
  | error e => rw [hr] at hF; simp [Except.isOk, Except.toBool] at hF
  | ok f => simp [SetFgColor_FontColor]

/-- C17 in the sample world, for the white-on-black default request. -/
theorem C17_foreground_is_background_witness :
    (GetFontDrawer sampleEnv (LoadBgImage sampleEnv { sampleRequest with WhiteOnBlack := true } []).1
        (LoadBgImage sampleEnv { sampleRequest with WhiteOnBlack := true } []).2.1).1.Src
      = some (getBgColor (LoadBgImage sampleEnv { sampleRequest with WhiteOnBlack := true } []).1) :=
  (C17_foreground_is_background sampleEnv { sampleRequest with WhiteOnBlack := true }).2
    (by decide) (by decide)

/-! ## The synthesised canvas: claims C12 and C14 -/

theorem contains_canvas {r : Rectangle} (hR : r = ⟨⟨0, 0⟩, ⟨640, 480⟩⟩) (x y : Int) :
    r.contains x y = true ↔ (0 ≤ x ∧ x < 640 ∧ 0 ≤ y ∧ y < 480) := by
  subst hR
  simp only [Rectangle.contains, Bool.and_eq_true, decide_eq_true_eq]
  constructor
  · rintro ⟨⟨⟨h1, h2⟩, h3⟩, h4⟩; exact ⟨h1, h2, h3, h4⟩
  · rintro ⟨h1, h2, h3, h4⟩; exact ⟨⟨⟨h1, h2⟩, h3⟩, h4⟩

theorem Set_inside (m : RGBA) (x y : Int) (c : Color) (h : m.Rect.contains x y = true) :
    (m.Set x y c).Rect = m.Rect ∧
      ∀ a b : Int, (m.Set x y c).Pix a b = if a = x ∧ b = y then rgbaModel c else m.Pix a b := by
  simp [RGBA.Set, h]

/-- The guide loop of `CreateBgImage` after `n` rounds on a 640 by 480 canvas:
the bounds are kept and exactly the first `n` pixels of each guide line hold
the guide colour. -/
theorem ruler_fold (ruler : Color) (base : RGBA) (hR : base.Rect = ⟨⟨0, 0⟩, ⟨640, 480⟩⟩) :
    ∀ n : Nat, n ≤ 200 →
      ((List.range n).foldl
          (fun (m : RGBA) (i : Nat) => (m.Set 10 (10 + i) ruler).Set (10 + i) 10 ruler)
          base).Rect = base.Rect ∧
        ∀ x y : Int,
          ((List.range n).foldl
            (fun (m : RGBA) (i : Nat) => (m.Set 10 (10 + i) ruler).Set (10 + i) 10 ruler)
            base).Pix x y
            = if (x = 10 ∧ 10 ≤ y ∧ y < 10 + (n : Int)) ∨ (y = 10 ∧ 10 ≤ x ∧ x < 10 + (n : Int))
              then rgbaModel ruler else base.Pix x y := by
  intro n
  induction n with
  | zero =>
    intro _
    refine ⟨rfl, fun x y => ?_⟩
    rw [if_neg (by push_cast; omega)]
    rfl
  | succ n ih =>
    intro hn
    obtain ⟨hr, hp⟩ := ih (by omega)
    rw [List.range_succ, List.foldl_append]
    simp only [List.foldl_cons, List.foldl_nil]
    generalize (List.range n).foldl
      (fun (m : RGBA) (i : Nat) => (m.Set 10 (10 + i) ruler).Set (10 + i) 10 ruler) base = m
      at hr hp ⊢
    have h1 : m.Rect.contains 10 (10 + (n : Int)) = true :=
      (contains_canvas (hr.trans hR) _ _).mpr (by omega)
    obtain ⟨hr1, hp1⟩ := Set_inside m 10 (10 + (n : Int)) ruler h1
    have h2 : (m.Set 10 (10 + (n : Int)) ruler).Rect.contains (10 + (n : Int)) 10 = true :=
      (contains_canvas ((hr1.trans hr).trans hR) _ _).mpr (by omega)
    obtain ⟨hr2, hp2⟩ := Set_inside (m.Set 10 (10 + (n : Int)) ruler) (10 + (n : Int)) 10 ruler h2
    refine ⟨(hr2.trans hr1).trans hr, fun x y => ?_⟩
    rw [hp2, hp1, hp]
    push_cast
    split_ifs <;> first | rfl | (exfalso; omega)

theorem rulerColor_SetFgColor (d : DrawText) : rulerColor (SetFgColor d) = rulerColor d := by
  unfold rulerColor
  rw [SetFgColor_WhiteOnBlack]

theorem getBgColor_SetFgColor (d : DrawText) : getBgColor (SetFgColor d) = getBgColor d := by
  unfold getBgColor
  rw [SetFgColor_WhiteOnBlack]

theorem rgbaModel_rulerColor (d : DrawText) : rgbaModel (rulerColor d) = rulerColor d := by
  unfold rulerColor
  by_cases h : d.WhiteOnBlack = true <;> simp [h, rgbaModel]

/-- The canvas of `CreateBgImage(640, 480)`, pixel by pixel. -/
theorem CreateBgImage_canvas (d : DrawText) :
    (CreateBgImage d 640 480).2.Rect = ⟨⟨0, 0⟩, ⟨640, 480⟩⟩ ∧
      ∀ x y : Int, (CreateBgImage d 640 480).2.Pix x y
        = if (x = 10 ∧ 10 ≤ y ∧ y < 210) ∨ (y = 10 ∧ 10 ≤ x ∧ x < 210) then rulerColor d
          else if 0 ≤ x ∧ x < 640 ∧ 0 ≤ y ∧ y < 480 then rgbaModel (getBgColor d).C
          else .RGBA 0 0 0 0 := by
  have hbase : (drawUniformSrc (NewRGBA (imageRect 0 0 640 480)) (getBgColor (SetFgColor d))).Rect
      = ⟨⟨0, 0⟩, ⟨640, 480⟩⟩ := by
    simp [drawUniformSrc, NewRGBA, imageRect]
  obtain ⟨hr, hp⟩ := ruler_fold (rulerColor (SetFgColor d)) _ hbase 200 (le_refl _)
  refine ⟨hr.trans hbase, fun x y => ?_⟩
  have := hp x y
  simp only [CreateBgImage]
  rw [this, rulerColor_SetFgColor, rgbaModel_rulerColor, getBgColor_SetFgColor]
  have hc : (drawUniformSrc (NewRGBA (imageRect 0 0 640 480)) (getBgColor d)).Pix x y
      = if 0 ≤ x ∧ x < 640 ∧ 0 ≤ y ∧ y < 480 then rgbaModel (getBgColor d).C
        else .RGBA 0 0 0 0 := by
    have hrect : (NewRGBA (imageRect 0 0 640 480)).Rect = ⟨⟨0, 0⟩, ⟨640, 480⟩⟩ := by
      simp [NewRGBA, imageRect]
    simp only [drawUniformSrc]
    by_cases hin : 0 ≤ x ∧ x < 640 ∧ 0 ≤ y ∧ y < 480
    · rw [if_pos ((contains_canvas hrect x y).mpr hin), if_pos hin]
    · rw [if_neg (fun h => hin ((contains_canvas hrect x y).mp h)), if_neg hin]
      rfl
  rw [hc]
  norm_num

theorem rulerColor_ne_bg (d : DrawText) : rulerColor d ≠ rgbaModel (getBgColor d).C := by
  unfold rulerColor getBgColor
  by_cases h : d.WhiteOnBlack = true <;> simp [h, rgbaModel, imageBlack, imageWhite]

theorem colorRGBA_bg (d : DrawText) :
    colorRGBA (rgbaModel (getBgColor d).C) = colorRGBA (getBgColor d).C := by
  unfold getBgColor
  by_cases h : d.WhiteOnBlack = true <;> simp [h, rgbaModel, imageBlack, imageWhite, colorRGBA]

theorem colorRGBA_ruler_ne_bg (d : DrawText) :
    colorRGBA (rulerColor d) ≠ colorRGBA (getBgColor d).C := by
  unfold rulerColor getBgColor
  by_cases h : d.WhiteOnBlack = true <;> simp [h, imageBlack, imageWhite, colorRGBA]

theorem LoadBgImage_empty (env : Env) (d : DrawText) :
    LoadBgImage env d [] = ((CreateBgImage d 640 480).1, (CreateBgImage d 640 480).2, none) := by
  simp [LoadBgImage]

/-- C12, the synthesised canvas: `LoadBgImage("")` returns no error and the
canvas of `CreateBgImage(640, 480)`, with bounds 640 by 480; inside the bounds
pixel `(x, y)` holds the guide gray exactly when `x = 10` and `10 ≤ y < 210`, or
`y = 10` and `10 ≤ x < 210`, and holds the colour of `getBgColor` (white, or
black under `WhiteOnBlack`) at every other position; the guide gray differs
from the background colour. -/
theorem C12_synthesised_canvas (env : Env) (d : DrawText) :
    (LoadBgImage env d []).2.2 = none ∧
      (LoadBgImage env d []).2.1 = (CreateBgImage d 640 480).2 ∧
      (LoadBgImage env d []).2.1.Rect = ⟨⟨0, 0⟩, ⟨640, 480⟩⟩ ∧
      (∀ x y : Int, 0 ≤ x → x < 640 → 0 ≤ y → y < 480 →
        ((LoadBgImage env d []).2.1.Pix x y = rulerColor d ↔
          ((x = 10 ∧ 10 ≤ y ∧ y < 210) ∨ (y = 10 ∧ 10 ≤ x ∧ x < 210))) ∧
        (¬ ((x = 10 ∧ 10 ≤ y ∧ y < 210) ∨ (y = 10 ∧ 10 ≤ x ∧ x < 210)) →
          (LoadBgImage env d []).2.1.Pix x y = rgbaModel (getBgColor d).C)) ∧
      colorRGBA (rgbaModel (getBgColor d).C) = colorRGBA (getBgColor d).C ∧
      getBgColor d = (if d.WhiteOnBlack then imageBlack else imageWhite) ∧
      rulerColor d ≠ rgbaModel (getBgColor d).C ∧
      colorRGBA (rulerColor d) ≠ colorRGBA (getBgColor d).C := by
  obtain ⟨hr, hp⟩ := CreateBgImage_canvas d
  rw [LoadBgImage_empty]
  dsimp only
  refine ⟨rfl, rfl, hr, ?_, colorRGBA_bg d, rfl, rulerColor_ne_bg d,
    colorRGBA_ruler_ne_bg d⟩
  intro x y hx0 hx1 hy0 hy1
  have hpx := hp x y
  by_cases hg : (x = 10 ∧ 10 ≤ y ∧ y < 210) ∨ (y = 10 ∧ 10 ≤ x ∧ x < 210)
  · rw [if_pos hg] at hpx
    exact ⟨⟨fun _ => hg, fun _ => hpx⟩, fun h => absurd hg h⟩
  · rw [if_neg hg, if_pos ⟨hx0, hx1, hy0, hy1⟩] at hpx
    refine ⟨⟨fun h => ?_, fun h => absurd h hg⟩, fun _ => hpx⟩
    exact absurd (h.symm.trans hpx) (rulerColor_ne_bg d)

/-- C14 refuted as stated: the guide gray of the white-on-black mode has the
channels `0x22`, the other one `0xdd`, and `0x22` is not greater than `0xdd`. -/
theorem C14_counterexample :
    rulerColor { WhiteOnBlack := true } = .RGBA 0x22 0x22 0x22 0xff ∧
      rulerColor { WhiteOnBlack := false } = .RGBA 0xdd 0xdd 0xdd 0xff ∧
      ¬ ((0xdd : Nat) < 0x22) := by
  decide

/-- C14 as amended, the guide colour: the guide gray that `CreateBgImage` uses,
the colour it stores at `(10, 10)`, is `0x22` per colour channel when
`WhiteOnBlack` is true and `0xdd` when it is false, with alpha `0xff` in both;
the white-on-black one is the darker of the two, its colour channels being
smaller. -/
theorem C14_guide_gray (d : DrawText) :
    (CreateBgImage d 640 480).2.Pix 10 10 = rulerColor d ∧
      rulerColor d
        = (if d.WhiteOnBlack then Color.RGBA 0x22 0x22 0x22 0xff
            else Color.RGBA 0xdd 0xdd 0xdd 0xff) ∧
      (0x22 : Nat) < 0xdd ∧
      (colorRGBA (Color.RGBA 0x22 0x22 0x22 0xff)).1
        < (colorRGBA (Color.RGBA 0xdd 0xdd 0xdd 0xff)).1 := by
  refine ⟨?_, rfl, by decide, by decide⟩
  rw [(CreateBgImage_canvas d).2 10 10, if_pos (by decide)]

/-! ## Error propagation: claim C13 -/

/-- The four ways `CreateImageWithText` ends, by the results of its stages. -/
theorem CreateImageWithText_cases (env : Env) (d : DrawText) (text saveAs : Str) :
    CreateImageWithText env d text saveAs =
      match (stageBg env d).2.2 with
      | some e => ⟨(stageBg env d).1, some e, [], false, false⟩
      | none =>
        match (stageFont env d).2 with
        | some e => ⟨(stageBg env d).1, some e, [], false, false⟩
        | none =>
          match SaveImage env saveAs with
          | some e =>
            ⟨(stageBg env d).1, some e,
              (AddText env (stageBg env d).1 (stageFont env d).1 (stageBg env d).2.1.Rect.Max
                text).1, true, false⟩
          | none =>
            ⟨(stageBg env d).1, none,
              (AddText env (stageBg env d).1 (stageFont env d).1 (stageBg env d).2.1.Rect.Max
                text).1, true, true⟩ := by
  simp only [CreateImageWithText, stageFont, stageBg]
  rcases hL : LoadBgImage env (applyDefaultsIfNeeded d) (applyDefaultsIfNeeded d).SrcImgPath
    with ⟨d2, rgba, e⟩
  cases e with
  | some e => rfl
  | none =>
    simp only
    rcases hG : GetFontDrawer env d2 rgba with ⟨dr, e2⟩
    cases e2 with
    | some e2 => rfl
    | none => simp only

/-- C13, error propagation in `CreateImageWithText`: the call returns the error
of the first stage that fails, in the order background, font, save; when the
background or the font stage fails nothing is drawn and `SaveImage` is not
called, and the result does not depend on the later stages; the call returns
`nil` if and only if all three stages succeed, and `SaveImage` is called if and
only if the first two do. -/
theorem C13_error_propagation (env : Env) (d : DrawText) (text saveAs : Str) :
    (∀ e, (stageBg env d).2.2 = some e →
      (CreateImageWithText env d text saveAs).err = some e ∧
      (CreateImageWithText env d text saveAs).draws = [] ∧
      (CreateImageWithText env d text saveAs).saveCalled = false ∧
      (CreateImageWithText env d text saveAs).printed = false) ∧
    (∀ e, (stageBg env d).2.2 = none → (stageFont env d).2 = some e →
      (CreateImageWithText env d text saveAs).err = some e ∧
      (CreateImageWithText env d text saveAs).draws = [] ∧
      (CreateImageWithText env d text saveAs).saveCalled = false ∧
      (CreateImageWithText env d text saveAs).printed = false) ∧
    ((stageBg env d).2.2 = none → (stageFont env d).2 = none →
      (CreateImageWithText env d text saveAs).err = SaveImage env saveAs ∧
      (CreateImageWithText env d text saveAs).saveCalled = true) ∧
    ((CreateImageWithText env d text saveAs).err = none ↔
      ((stageBg env d).2.2 = none ∧ (stageFont env d).2 = none ∧ SaveImage env saveAs = none)) ∧
    ((CreateImageWithText env d text saveAs).saveCalled = true ↔
      ((stageBg env d).2.2 = none ∧ (stageFont env d).2 = none)) ∧
    (∀ (rf : Str → Except GoError Font) (sv : Str → Option GoError),
      (stageBg env d).2.2 ≠ none →
      (CreateImageWithText { env with readFont := rf, save := sv } d text saveAs).err
        = (CreateImageWithText env d text saveAs).err) ∧
    (∀ (sv : Str → Option GoError),
      (stageFont env d).2 ≠ none →
      (CreateImageWithText { env with save := sv } d text saveAs).err
        = (CreateImageWithText env d text saveAs).err) := by
  have hc := CreateImageWithText_cases env d text saveAs
  refine ⟨?_, ?_, ?_, ?_, ?_, ?_, ?_⟩
  · intro e hb
    rw [hc, hb]
    exact ⟨rfl, rfl, rfl, rfl⟩
  · intro e hb hf
    rw [hc, hb, hf]
    exact ⟨rfl, rfl, rfl, rfl⟩
  · intro hb hf
    rw [hc, hb, hf]
    cases SaveImage env saveAs <;> exact ⟨rfl, rfl⟩
  · rw [hc]
    cases hb : (stageBg env d).2.2 with
    | some e => simp
    | none =>
      cases hf : (stageFont env d).2 with
      | some e => simp
      | none => cases hs : SaveImage env saveAs <;> simp
  · rw [hc]
    cases hb : (stageBg env d).2.2 with
    | some e => simp
    | none =>
      cases hf : (stageFont env d).2 with
      | some e => simp
      | none => cases hs : SaveImage env saveAs <;> simp
  · intro rf sv hb
    have hc2 := CreateImageWithText_cases { env with readFont := rf, save := sv } d text saveAs
    have hsame : stageBg { env with readFont := rf, save := sv } d = stageBg env d := rfl
    rw [hc, hc2, hsame]
    cases hb2 : (stageBg env d).2.2 with
    | some e => rfl
    | none => exact absurd hb2 hb
  · intro sv hf
    have hc2 := CreateImageWithText_cases { env with save := sv } d text saveAs
    have hsame : stageBg { env with save := sv } d = stageBg env d := rfl
    have hsame2 : stageFont { env with save := sv } d = stageFont env d := rfl
    rw [hc, hc2, hsame, hsame2]
    cases hb2 : (stageBg env d).2.2 with
    | some e => rfl
    | none =>
      cases hf2 : (stageFont env d).2 with
      | some e => rfl
      | none => exact absurd hf2 hf

/-! ## Line width and line count: claims C15 and C16 -/

theorem sumLen_cons (w : Str) (ws : List Str) : sumLen (w :: ws) = len w + sumLen ws := by
  simp [sumLen]

theorem sumLen_trimmed_le (r : List Str) :
    sumLen ((r.map TrimSpace).filter (fun w => decide (w ≠ []))) ≤ sumLen r := by
  induction r with
  | nil => simp [sumLen]
  | cons a r ih =>
    have ha := len_TrimSpace_le a
    by_cases ht : TrimSpace a = []
    · simp only [List.map_cons, ht, ne_eq, not_true_eq_false, decide_False, Bool.false_eq_true,
        not_false_eq_true, List.filter_cons_of_neg, sumLen_cons]
      simp only [ne_eq] at ih
      omega
    · simp only [List.map_cons, ne_eq, ht, not_false_eq_true, decide_True,
        List.filter_cons_of_pos, sumLen_cons]
      simp only [ne_eq] at ih
      omega

/-- The pieces of a line weigh the first piece plus the bytes after the first
space. -/
theorem sumLen_Split (l : Str) : sumLen (Split l) = len ((Split l).headD []) + restBytes l := by
  unfold restBytes
  cases h : Split l with
  | nil => exact absurd h (Split_ne_nil l)
  | cons a r => simp [sumLen]

/-- The words of a line weigh at most the first word plus the bytes after the
first space. -/
theorem sumLen_tokens_le (l : Str) :
    sumLen (tokens l) ≤ len ((tokens l).headD []) + restBytes l := by
  unfold tokens restBytes
  cases h : Split l with
  | nil => exact absurd h (Split_ne_nil l)
  | cons a r =>
    have hr := sumLen_trimmed_le r
    simp only [ne_eq] at hr
    by_cases ht : TrimSpace a = []
    · simp only [List.map_cons, ht, ne_eq, not_true_eq_false, decide_False, Bool.false_eq_true,
        not_false_eq_true, List.filter_cons_of_neg, List.tail_cons]
      have : sumLen r = (r.map len).sum := rfl
      omega
    · simp only [List.map_cons, ne_eq, ht, not_false_eq_true, decide_True,
        List.filter_cons_of_pos, List.tail_cons, sumLen_cons, List.headD_cons]
      have : sumLen r = (r.map len).sum := rfl
      omega

/-- C15, the true line-width bound of `AddText`: for every body text and every
`MaxCharsPerLine = N > 0`, on every emitted body line the summed length of the
words is strictly less than `N` plus the length of the first word of the line.
A word is a word of the loop, a piece between single spaces: the bound holds
for the trimmed non-empty pieces (`tokens`) and for the raw pieces (`Split`),
where a line built by the accumulator has an empty first piece and so stays
below `N` altogether. -/
theorem C15_line_width (d : DrawText) (dy y : Int) (text : Str) (hN : 0 < d.MaxCharsPerLine) :
    ∀ l ∈ lineTexts (bodyCalls d dy y text),
      (sumLen (tokens l) : Int) < d.MaxCharsPerLine + (len ((tokens l).headD []) : Int) ∧
      (sumLen (Split l) : Int) < d.MaxCharsPerLine + (len ((Split l).headD []) : Int) := by
  intro l hl
  have h := bodyCalls_restBytes d dy y text hN l hl
  have h1 := sumLen_tokens_le l
  have h2 := sumLen_Split l
  constructor <;> omega

/-- C15 at budget 5 and the text `aaaa bbbb cccc`, whose second line
`bbbb cccc` weighs 8 with a first word of 4. -/
theorem C15_line_width_witness :
    (0 : Int) < 5 ∧
      lineTexts (bodyCalls { MaxCharsPerLine := 5 } 15 22 "aaaa bbbb cccc".toList)
        = [" aaaa".toList, "bbbb cccc".toList] ∧
      ∀ l ∈ lineTexts (bodyCalls { MaxCharsPerLine := 5 } 15 22 "aaaa bbbb cccc".toList),
        (sumLen (tokens l) : Int) < 5 + (len ((tokens l).headD []) : Int) ∧
        (sumLen (Split l) : Int) < 5 + (len ((Split l).headD []) : Int) :=
  ⟨by decide, by decide,
    C15_line_width { MaxCharsPerLine := 5 } 15 22 "aaaa bbbb cccc".toList (by decide)⟩

/-- The loop emits at least one line and at most one line per piece plus one:
every round but the last emits at most one line, the last one or two. -/
theorem wrapLoop_length (maxChars dy lastIndex : Int) :
    ∀ (ws : List Str) (idx : Nat) (st : WrapState), ws ≠ [] →
      (idx : Int) + ws.length = lastIndex + 1 →
      1 ≤ (wrapLoop maxChars dy lastIndex idx ws st).length ∧
        (wrapLoop maxChars dy lastIndex idx ws st).length ≤ ws.length + 1 := by
  intro ws
  induction ws with
  | nil => intro idx st h; exact absurd rfl h
  | cons w ws ih =>
    intro idx st _ hidx
    by_cases hlast : ws = []
    · subst hlast
      have hi : (idx : Int) = lastIndex := by simp at hidx; omega
      have hnlt : ¬ ((idx : Int) < lastIndex) := by omega
      by_cases hb : st.currentLineLength + (len w : Int) < maxChars
      · simp [wrapLoop, hb, hnlt]
      · simp [wrapLoop, hb, hi]
    · have hlt : (idx : Int) < lastIndex := by
        have : 0 < ws.length := List.length_pos.mpr hlast
        simp at hidx; omega
      have hni : ¬ ((idx : Int) = lastIndex) := by omega
      have hidx2 : ((idx + 1 : Nat) : Int) + ws.length = lastIndex + 1 := by
        simp at hidx ⊢; omega
      by_cases hb : st.currentLineLength + (len w : Int) < maxChars
      · simp only [wrapLoop, hb, hlt, if_true]
        obtain ⟨h1, h2⟩ := ih (idx + 1)
          ⟨st.s ++ ' ' :: TrimSpace w, st.nextS, st.currentLineLength + (len w : Int), st.y⟩
          hlast hidx2
        refine ⟨h1, ?_⟩
        simp only [List.length_cons]
        omega
      · simp only [wrapLoop, hb, hni, if_false]
        have := ih (idx + 1) (emitLine dy w st.s w st.y).2 hlast hidx2
        simp only [List.length_cons]
        omega

/-- C16, the line count of `AddText`: for every body text, the empty one
included, and every `MaxCharsPerLine`, the number of body lines passed to
`addLine` is at least 1 and at most the number of space-separated pieces of the
text plus 1; the loop is a recursion on the list of pieces, so it ends, and
`AddText` returns `nil`, having drawn the body lines and, when there is a
title, one string more. -/
theorem C16_line_count (env : Env) (d : DrawText) (drawer : Drawer) (max : Point)
    (dy y : Int) (text : Str) :
    1 ≤ (bodyCalls d dy y text).length ∧
      (bodyCalls d dy y text).length ≤ (Split text).length + 1 ∧
      (AddText env d drawer max text).2 = none ∧
      (AddText env d drawer max text).1.length
        = (bodyCalls d dy y text).length + (if d.TextTitle ≠ [] then 1 else 0) := by
  have hlen : ∀ dy y : Int, (bodyCalls d dy y text).length
      = (lineTexts (bodyCalls { MaxCharsPerLine := d.MaxCharsPerLine } 0 0 text)).length := by
    intro dy y
    rw [← bodyCalls_texts d dy y text]
    simp [lineTexts]
  have hb := wrapLoop_length d.MaxCharsPerLine dy ((Split text).length - 1) (Split text) 0
    { s := [], nextS := [], currentLineLength := 0, y := y } (Split_ne_nil text) (by simp)
  refine ⟨hb.1, hb.2, ?_, ?_⟩
  · unfold AddText
    by_cases h : d.TextTitle = [] <;> simp [h]
  · rw [AddText_calls]
    by_cases h : d.TextTitle = []
    · simp [h, hlen _ _, hlen dy y]
    · simp [h, hlen _ _, hlen dy y]

end Golimg
